import Mathlib

/-
Verification development for the Newton-Raphson power-flow solver of this
repository.  The solver exists in three copies:

  * the full solver        (src/original code/NewtonRaphson.py, GenericNewtonRaphson)
  * the docs copy          (src/docs/newton_raphson.py,        GenericNewtonRaphson)
  * the condensed copy     (src/Python/NewtonRaphson.py,       GenericNewtonRaphson)

All three are embedded below.  Real arithmetic is modelled over an arbitrary
linear ordered field `α`; the transcendental primitives used by the Python code
(`math.sin`, `math.cos`, `abs` of a complex, `numpy.angle`) and the linear
solve (`numpy.linalg.inv` composed with `numpy.matmul`) are collected in an
`Ops` record, so the combinatorial/control structure of the solver is embedded
exactly while the numerics stay parametric.  A genuine instantiation over `ℝ`
(`Real.sin`, `Real.cos`, `Real.sqrt`, `Complex.arg`, exact 2x2 inversion) is
provided for the concrete counterexample runs.
-/

set_option maxHeartbeats 1000000

namespace PowerFlow

/-- Python `complex` values: a pair of field elements. -/
@[ext]
structure Cplx (α : Type) where
  re : α
  im : α
deriving DecidableEq, Repr

variable {α : Type} [LinearOrderedField α]

instance : Zero (Cplx α) := ⟨⟨0, 0⟩⟩

instance : Add (Cplx α) := ⟨fun a b => ⟨a.re + b.re, a.im + b.im⟩⟩

instance : Neg (Cplx α) := ⟨fun a => ⟨-a.re, -a.im⟩⟩

instance : Sub (Cplx α) := ⟨fun a b => ⟨a.re - b.re, a.im - b.im⟩⟩

/-- Complex multiplication, as performed by Python on `complex` values. -/
instance : Mul (Cplx α) := ⟨fun a b => ⟨a.re * b.re - a.im * b.im, a.re * b.im + a.im * b.re⟩⟩

/-- Python `numpy.conjugate`. -/
def Cplx.conj (z : Cplx α) : Cplx α := ⟨z.re, -z.im⟩

/-- Scaling a complex by a float, as in `Vmag[i] * Sload_const_I[i]`. -/
def Cplx.smul (r : α) (z : Cplx α) : Cplx α := ⟨r * z.re, r * z.im⟩

theorem Cplx.zero_def : (0 : Cplx α) = ⟨0, 0⟩ := rfl

theorem Cplx.re_zero : (0 : Cplx α).re = 0 := rfl

theorem Cplx.im_zero : (0 : Cplx α).im = 0 := rfl

theorem Cplx.add_def (a b : Cplx α) : a + b = ⟨a.re + b.re, a.im + b.im⟩ := rfl

theorem Cplx.sub_def (a b : Cplx α) : a - b = ⟨a.re - b.re, a.im - b.im⟩ := rfl

theorem Cplx.mul_def (a b : Cplx α) :
    a * b = ⟨a.re * b.re - a.im * b.im, a.re * b.im + a.im * b.re⟩ := rfl

/-- Exceptions observable from the Python code. -/
inductive PyErr where
  | valueError
  | indexError
  | typeError
  | linAlgError
  | capability
  | outOfFuel
deriving DecidableEq, Repr

/-- Numeric primitives the solver delegates to the math libraries:
`math.sin`, `math.cos`, `abs` on `complex`, `numpy.angle`, and the linear
solve `numpy.matmul(numpy.linalg.inv(J), mismatch)` (`none` models a
`numpy.linalg.LinAlgError` on a singular matrix). -/
structure Ops (α : Type) where
  sin : α → α
  cos : α → α
  cabs : Cplx α → α
  angle : Cplx α → α
  linsolve : (n : ℕ) → (Fin n → Fin n → α) → (Fin n → α) → Option (Fin n → α)

/-- Inputs of the full solver (src/original code/NewtonRaphson.py), for a fixed
bus count `N`, after the list arguments have been read into functions.  Outer
`Option` = the whole vector argument was `None`; inner `Option` = a per-bus
`None` entry. -/
structure Inputs (α : Type) (N : ℕ) where
  Ybus : Fin N → Fin N → Cplx α
  Vreg_mag : Fin N → Option α
  Sgen : Fin N → Cplx α
  Sload : Fin N → Cplx α
  Sload_const_I : Option (Fin N → Option (Cplx α))
  Sload_const_Y : Option (Fin N → Option (Cplx α))
  Qgen_min : Option (Fin N → Option α)
  Qgen_max : Option (Fin N → Option α)
  Qgen_cap : Option (Fin N → Option (α → α → Option (α × α)))
  initial_V : Option (Fin N → Cplx α)

/-- Reading entry `i` of an optional vector of optional entries, as the Python
`X is not None and X[i] is not None` idiom does. -/
def optAt {N : ℕ} {β : Type} (v : Option (Fin N → Option β)) (i : Fin N) : Option β :=
  match v with
  | none => none
  | some f => f i

/-- Python `max` on a list (raises `ValueError` on an empty list, modelled by
`none`). -/
def pyMax (l : List α) : Option α :=
  match l with
  | [] => none
  | x :: xs => some (xs.foldl max x)

/-- Python `min` on a list. -/
def pyMin (l : List α) : Option α :=
  match l with
  | [] => none
  | x :: xs => some (xs.foldl min x)

/-- The tolerance constant `TOLERANCE = 1.0e-9` of the source. -/
def TOLERANCE (α : Type) [LinearOrderedField α] : α := 1 / 1000000000

/-- The iteration cap `MAX_ITERATIONS = 200` of the source. -/
def MAX_ITERATIONS : ℕ := 200

/-- Mutable per-iteration state of the solver: voltage phasors, their
magnitude/angle decomposition, the last computed injected power, and the
(caller-aliased, mutated in place) `Sgen` vector. -/
@[ext]
structure NRState (α : Type) (N : ℕ) where
  V : Fin N → Cplx α
  Vmag : Fin N → α
  Vang : Fin N → α
  S : Fin N → Cplx α
  Sgen : Fin N → Cplx α

/-- Return value `[V, S, solved]` of the Python function; `Sgen` records the
final contents of the caller-aliased `Sgen` argument (mutated in place). -/
structure NRRes (α : Type) where
  V : List (Cplx α)
  S : List (Cplx α)
  solved : Bool
  Sgen : List (Cplx α)
deriving DecidableEq, Repr

/-- Row index `i - 1` (angle/real-power block) in the `(N-1)*2` sized system,
for a non-slack bus `i`; the code writes `jacobian[i - 1][...]` and
`mismatch[i - 1]`. -/
def pIdx {N : ℕ} (i : Fin N) (h : i.val ≠ 0) : Fin ((N - 1) * 2) :=
  ⟨i.val - 1, by have := i.isLt; omega⟩

/-- Row index `i + num_buses - 2` (magnitude/reactive-power block) for a
non-slack bus `i`. -/
def qIdx {N : ℕ} (i : Fin N) (h : i.val ≠ 0) : Fin ((N - 1) * 2) :=
  ⟨i.val + N - 2, by have := i.isLt; omega⟩

/-- Decode a row/column of the `(N-1)*2` system back to its bus index: rows
`0 .. N-2` come from bus `p+1` (P block), rows `N-1 .. 2N-3` from bus
`p-(N-1)+1` (Q block).  This inverts the index arithmetic of the source. -/
def rowBus {N : ℕ} (p : Fin ((N - 1) * 2)) : Fin N :=
  if h : p.val < N - 1 then ⟨p.val + 1, by have := p.isLt; omega⟩
  else ⟨p.val - (N - 1) + 1, by have := p.isLt; omega⟩

/-- Whether a row/column of the `(N-1)*2` system lies in the reactive-power /
voltage-magnitude half. -/
def rowIsQ {N : ℕ} (p : Fin ((N - 1) * 2)) : Bool :=
  decide (N - 1 ≤ p.val)

/-- Rectangular form `complex(real=Vmag*cos(Vang), imag=Vmag*sin(Vang))`. -/
def polar (ops : Ops α) (m a : α) : Cplx α :=
  ⟨m * ops.cos a, m * ops.sin a⟩

/-- Sum of a finite vector of complex values, in index order, as
`numpy.matmul` accumulates a row. -/
def csum {n : ℕ} (f : Fin n → Cplx α) : Cplx α :=
  (List.ofFn f).foldl (· + ·) 0

/-- Injected power `S[i] = V[i] * conj((Ybus V)[i])` (lines 207-208 of the
original; identical in the docs and condensed copies). -/
def busPower {N : ℕ} (Ybus : Fin N → Fin N → Cplx α) (V : Fin N → Cplx α) (i : Fin N) :
    Cplx α :=
  V i * Cplx.conj (csum (fun j => Ybus i j * V j))

/-- Initial state (lines 116-120 of the original; the identical text appears in
the condensed copy).  For each bus `x`, the real part is `Vreg_mag[x]` when the
bus is declared regulated, else `Vreg_mag[0]` on a flat start, else
`initial_V[x].real`; the imaginary part is `0` on a flat start, else
`initial_V[x].imag`.  `Option.getD 0` stands for the value Python reads out of
a non-`None` entry (all reads exercised by the theorems are on `some` values). -/
def initState (ops : Ops α) {N : ℕ} (Vreg_mag : Fin N → Option α)
    (initial_V : Option (Fin N → Cplx α)) (Sgen : Fin N → Cplx α) : NRState α N :=
  let declared : Fin N → Bool := fun x => (Vreg_mag x).isSome
  let V : Fin N → Cplx α := fun x =>
    ⟨if declared x then (Vreg_mag x).getD 0
      else match initial_V with
        | none => (Vreg_mag ⟨0, Nat.lt_of_le_of_lt (Nat.zero_le x.val) x.isLt⟩).getD 0
        | some iv => (iv x).re,
     match initial_V with
       | none => 0
       | some iv => (iv x).im⟩
  { V := V
    Vmag := fun x => ops.cabs (V x)
    Vang := fun x => ops.angle (V x)
    S := fun _ => 0
    Sgen := Sgen }

/-- Initial state of the docs copy (src/docs/newton_raphson.py lines 117-126);
the branching is written on `initial_V` first, but the produced values agree
with the original copy. -/
def docsInitState (ops : Ops α) {N : ℕ} (Vreg_mag : Fin N → Option α)
    (initial_V : Option (Fin N → Cplx α)) (Sgen : Fin N → Cplx α) : NRState α N :=
  let declared : Fin N → Bool := fun x => (Vreg_mag x).isSome
  let V : Fin N → Cplx α := fun x =>
    match initial_V with
    | none =>
        ⟨if declared x then (Vreg_mag x).getD 0
          else (Vreg_mag ⟨0, Nat.lt_of_le_of_lt (Nat.zero_le x.val) x.isLt⟩).getD 0, 0⟩
    | some iv =>
        ⟨if declared x then (Vreg_mag x).getD 0 else (iv x).re, (iv x).im⟩
  { V := V
    Vmag := fun x => ops.cabs (V x)
    Vang := fun x => ops.angle (V x)
    S := fun _ => 0
    Sgen := Sgen }

/-- The Jacobian builder `calculate_Jacobian` (lines 129-194 of the original;
the identical text appears in the docs and condensed copies).  The imperative
double loop writes each of the `(N-1)*2` x `(N-1)*2` cells exactly once —
cell `(r, c)` is written by the loop indices `i = rowBus r`, `j = rowBus c`
in the block selected by which half `r` and `c` lie in — so the matrix is
embedded as the function of `(r, c)` computing that unique write. -/
def calculate_Jacobian (ops : Ops α) {N : ℕ} (Ybus : Fin N → Fin N → Cplx α)
    (Vmag Vang : Fin N → α) : Fin ((N - 1) * 2) → Fin ((N - 1) * 2) → α :=
  let Ybus_mag : Fin N → Fin N → α := fun i j => ops.cabs (Ybus i j)
  let Ybus_ang : Fin N → Fin N → α := fun i j => ops.angle (Ybus i j)
  fun r c =>
    let i := rowBus r
    let j := rowBus c
    match rowIsQ r, rowIsQ c with
    | false, false =>
        -- del P / del d
        if i = j then
          (∑ k, if k = i then 0 else
            Ybus_mag i k * Vmag k * ops.sin (Vang i - Vang k - Ybus_ang i k)) * (-Vmag i)
        else
          Vmag i * Ybus_mag i j * Vmag j * ops.sin (Vang i - Vang j - Ybus_ang i j)
    | false, true =>
        -- del P / del V
        if i = j then
          Vmag i * Ybus_mag i j * ops.cos (Ybus_ang i j) +
            ∑ k, Ybus_mag i k * Vmag k * ops.cos (Vang i - Vang k - Ybus_ang i k)
        else
          Vmag i * Ybus_mag i j * ops.cos (Vang i - Vang j - Ybus_ang i j)
    | true, false =>
        -- del Q / del d
        if i = j then
          (∑ k, if k = i then 0 else
            Ybus_mag i k * Vmag k * ops.cos (Vang i - Vang k - Ybus_ang i k)) * Vmag i
        else
          -Vmag i * Ybus_mag i j * Vmag j * ops.cos (Vang i - Vang j - Ybus_ang i j)
    | true, true =>
        -- del Q / del V
        if i = j then
          -Vmag i * Ybus_mag i j * ops.sin (Ybus_ang i j) +
            ∑ k, Ybus_mag i k * Vmag k * ops.sin (Vang i - Vang k - Ybus_ang i k)
        else
          Vmag i * Ybus_mag i j * ops.sin (Vang i - Vang j - Ybus_ang i j)

/-- Comparison of a Python `complex` with a float.  Python raises `TypeError`
(complex numbers are unordered); the original copy reaches such a comparison
inside its try block, because `S[i].imag + Sload[i]` adds the full complex
`Sload[i]` instead of `Sload[i].imag` (lines 262 and 275). -/
def pyLeComplexFloat (_c : Cplx α) (_x : α) : Except PyErr Bool := .error .typeError

/-- Comparison `complex >= float`, likewise a Python `TypeError`. -/
def pyGeComplexFloat (_c : Cplx α) (_x : α) : Except PyErr Bool := .error .typeError

/-- Body of the `try:` block of the dynamic-capability check in the original
copy (lines 260-288).  `capf` returning `none` models the user callback
raising.  The comparisons `(S[i].imag + Sload[i]) <= Qmin_val` and
`(S[i].imag + Sload[i]) >= Qmax_val` compare a complex against a float and so
raise `TypeError` before any of the subsequent pinning can run. -/
def dynBlock {N : ℕ} (inp : Inputs α N) (i : Fin N) (capf : α → α → Option (α × α))
    (S_i : Cplx α) (Vmag_i vreg : α) (under over : Bool) (sg : Cplx α) :
    Except PyErr (Bool × Bool × Cplx α) := do
  let qs ← match capf Vmag_i sg.re with
    | some p => Except.ok p
    | none => Except.error PyErr.capability
  -- `S[i].imag + Sload[i]` : float + complex = complex
  let lhs : Cplx α := ⟨S_i.im + (inp.Sload i).re, (inp.Sload i).im⟩
  let b1 ← pyLeComplexFloat lhs qs.1
  let (under1, sg1) :=
    if b1 ∨ vreg < Vmag_i then
      if under then (under, (⟨sg.re, max sg.im qs.1⟩ : Cplx α))
      else (true, (⟨sg.re, qs.1⟩ : Cplx α))
    else (under, sg)
  let b2 ← pyGeComplexFloat lhs qs.2
  let (over1, sg2) :=
    if b2 ∨ Vmag_i < vreg then
      if over then (over, (⟨sg1.re, min sg1.im qs.2⟩ : Cplx α))
      else (true, (⟨sg1.re, qs.2⟩ : Cplx α))
    else (over, sg1)
  pure (under1, over1, sg2)

/-- The `try: ... except Exception as e: print(e)` wrapper around the dynamic
capability check of the original copy: on any exception the accumulated
`(under, over, Sgen[i])` triple is left as it was. -/
def applyDynCap {N : ℕ} (inp : Inputs α N) (i : Fin N) (capf : α → α → Option (α × α))
    (S_i : Cplx α) (Vmag_i vreg : α) (acc : Bool × Bool × Cplx α) :
    Bool × Bool × Cplx α :=
  match dynBlock inp i capf S_i Vmag_i vreg acc.1 acc.2.1 acc.2.2 with
  | .ok r => r
  | .error _ => acc

/-- Per-bus classifier of the original copy (loop body, lines 227-295): decide
`Vregulating[i]` and the in-place update of `Sgen[i]`.  Returns
`(Vregulating[i], Sgen[i])`. -/
def classifyBus {N : ℕ} (inp : Inputs α N) (i : Fin N) (S_i Sgen_i : Cplx α)
    (Vmag_i : α) : Bool × Cplx α :=
  match inp.Vreg_mag i with
  | none => (false, Sgen_i)
  | some vreg =>
    -- static minimum (lines 234-242)
    let (under, sg1) :=
      match optAt inp.Qgen_min i with
      | some qmin =>
          if S_i.im + (inp.Sload i).im ≤ qmin ∨ vreg < Vmag_i then
            (true, (⟨Sgen_i.re, qmin⟩ : Cplx α))
          else (false, Sgen_i)
      | none => (false, Sgen_i)
    -- static maximum (lines 243-251)
    let (over, sg2) :=
      match optAt inp.Qgen_max i with
      | some qmax =>
          if qmax ≤ S_i.im + (inp.Sload i).im ∨ Vmag_i < vreg then
            (true, (⟨sg1.re, qmax⟩ : Cplx α))
          else (false, sg1)
      | none => (false, sg1)
    -- dynamic capability (lines 254-293); exceptions are caught and printed
    let (under2, over2, sg3) :=
      match optAt inp.Qgen_cap i with
      | some capf => applyDynCap inp i capf S_i Vmag_i vreg (under, over, sg2)
      | none => (under, over, sg2)
    (!under2 && !over2, sg3)

/-- Body of the `try:` block of the dynamic check in the docs copy
(src/docs/newton_raphson.py, lines 229-245); this copy compares
`S[i].imag + Sload[i].imag` (a float) against the limits, so only a raising
callback can abort it. -/
def docsDynBlock {N : ℕ} (inp : Inputs α N) (i : Fin N) (capf : α → α → Option (α × α))
    (S_i : Cplx α) (Vmag_i vreg : α) (under over : Bool) (sg : Cplx α) :
    Except PyErr (Bool × Bool × Cplx α) := do
  let qs ← match capf Vmag_i sg.re with
    | some p => Except.ok p
    | none => Except.error PyErr.capability
  let q := S_i.im + (inp.Sload i).im
  let (under1, sg1) :=
    if q ≤ qs.1 ∨ vreg < Vmag_i then
      if under then (under, (⟨sg.re, max sg.im qs.1⟩ : Cplx α))
      else (true, (⟨sg.re, qs.1⟩ : Cplx α))
    else (under, sg)
  let (over1, sg2) :=
    if qs.2 ≤ q ∨ Vmag_i < vreg then
      if over then (over, (⟨sg1.re, min sg1.im qs.2⟩ : Cplx α))
      else (true, (⟨sg1.re, qs.2⟩ : Cplx α))
    else (over, sg1)
  pure (under1, over1, sg2)

/-- Per-bus classifier of the docs copy (lines 211-250). -/
def docsClassifyBus {N : ℕ} (inp : Inputs α N) (i : Fin N) (S_i Sgen_i : Cplx α)
    (Vmag_i : α) : Bool × Cplx α :=
  match inp.Vreg_mag i with
  | none => (false, Sgen_i)
  | some vreg =>
    let (under, sg1) :=
      match optAt inp.Qgen_min i with
      | some qmin =>
          if S_i.im + (inp.Sload i).im ≤ qmin ∨ vreg < Vmag_i then
            (true, (⟨Sgen_i.re, qmin⟩ : Cplx α))
          else (false, Sgen_i)
      | none => (false, Sgen_i)
    let (over, sg2) :=
      match optAt inp.Qgen_max i with
      | some qmax =>
          if qmax ≤ S_i.im + (inp.Sload i).im ∨ Vmag_i < vreg then
            (true, (⟨sg1.re, qmax⟩ : Cplx α))
          else (false, sg1)
      | none => (false, sg1)
    let (under2, over2, sg3) :=
      match optAt inp.Qgen_cap i with
      | some capf =>
          match docsDynBlock inp i capf S_i Vmag_i vreg under over sg2 with
          | Except.ok r => r
          | Except.error _ => (under, over, sg2)
      | none => (under, over, sg2)
    (!under2 && !over2, sg3)

/-- Net injection `Snet` for bus `i` (lines 299-311 of the original; identical
in the docs copy): `Sgen[i] - Sload[i]`, minus `Vmag[i] * Sload_const_I[i]`
and `Vmag[i]^2 * Sload_const_Y[i]` when those optional terms are present. -/
def netInjection {N : ℕ} (inp : Inputs α N) (i : Fin N) (Sgen_i : Cplx α)
    (Vmag_i : α) : Cplx α :=
  let Snet := Sgen_i - inp.Sload i
  let Snet :=
    match optAt inp.Sload_const_I i with
    | some cI => Snet - Cplx.smul Vmag_i cI
    | none => Snet
  match optAt inp.Sload_const_Y i with
  | some cY => Snet - Cplx.smul (Vmag_i ^ 2) cY
  | none => Snet

/-- Mismatch vector assembly (lines 313-326 of the original; the same index
layout appears in the docs and condensed copies): entry `i - 1` holds
`Serr[i].real` and entry `i + num_buses - 2` holds `0` when the bus is
voltage-regulating, else `Serr[i].imag`. -/
def mismatchVec {N : ℕ} (serr : Fin N → Cplx α) (Vregulating : Fin N → Bool) :
    Fin ((N - 1) * 2) → α := fun p =>
  let i := rowBus p
  if rowIsQ p then (if Vregulating i then 0 else (serr i).im)
  else (serr i).re

/-- Correction application of the original copy (lines 330-362; identical in
the docs copy): `Vang[i] += del[i-1]`; for a declared-regulated bus that is
still regulating, `Vmag[i]` snaps to `Vreg_mag[i]`, for one that has come off
regulation the magnitude step is clamped at the regulation boundary, and an
unregulated bus takes the raw step. -/
def applyCorrections {N : ℕ} (inp : Inputs α N) (st : NRState α N)
    (Vregulating : Fin N → Bool) (δ : Fin ((N - 1) * 2) → α) : NRState α N :=
  { st with
    Vang := fun i =>
      if h : i.val = 0 then st.Vang i else st.Vang i + δ (pIdx i h),
    Vmag := fun i =>
      if h : i.val = 0 then st.Vmag i
      else
        match inp.Vreg_mag i with
        | some vreg =>
            if Vregulating i then vreg
            else
              let d := δ (qIdx i h)
              if vreg < st.Vmag i then
                -- limited by min reactive capability
                if d < vreg - st.Vmag i then vreg else st.Vmag i + d
              else if st.Vmag i < vreg then
                -- limited by max reactive capability
                if vreg - st.Vmag i < d then vreg else st.Vmag i + d
              else st.Vmag i + d
        | none => st.Vmag i + δ (qIdx i h) }

/-- One pass of the main loop of the original copy, up to the convergence
test: build the Jacobian, refresh `V` and `S`, classify buses, assemble the
mismatch, and, if the linear solve succeeds, apply the corrections.  Returns
the state as left when `numpy.linalg.inv` raises (first component) and, on a
successful solve, the correction vector together with the corrected state. -/
def advanceOrig {N : ℕ} (ops : Ops α) (inp : Inputs α N) (st : NRState α N) :
    NRState α N × Option ((Fin ((N - 1) * 2) → α) × NRState α N) :=
  let jac := calculate_Jacobian ops inp.Ybus st.Vmag st.Vang
  let V : Fin N → Cplx α := fun i =>
    if i.val = 0 then st.V i else polar ops (st.Vmag i) (st.Vang i)
  let S : Fin N → Cplx α := fun i => busPower inp.Ybus V i
  let cls : Fin N → Bool × Cplx α := fun i =>
    if i.val = 0 then (false, st.Sgen i)
    else classifyBus inp i (S i) (st.Sgen i) (st.Vmag i)
  let Vregulating : Fin N → Bool := fun i => (cls i).1
  let Sgen : Fin N → Cplx α := fun i => (cls i).2
  let pre : NRState α N := ⟨V, st.Vmag, st.Vang, S, Sgen⟩
  let serr : Fin N → Cplx α := fun i =>
    netInjection inp i (Sgen i) (st.Vmag i) - S i
  let mm := mismatchVec serr Vregulating
  match ops.linsolve ((N - 1) * 2) jac mm with
  | none => (pre, none)
  | some δ => (pre, some (δ, applyCorrections inp pre Vregulating δ))

/-- One pass of the docs copy: identical to the original except for the fixed
dynamic-capability comparison in the classifier. -/
def docsAdvance {N : ℕ} (ops : Ops α) (inp : Inputs α N) (st : NRState α N) :
    NRState α N × Option ((Fin ((N - 1) * 2) → α) × NRState α N) :=
  let jac := calculate_Jacobian ops inp.Ybus st.Vmag st.Vang
  let V : Fin N → Cplx α := fun i =>
    if i.val = 0 then st.V i else polar ops (st.Vmag i) (st.Vang i)
  let S : Fin N → Cplx α := fun i => busPower inp.Ybus V i
  let cls : Fin N → Bool × Cplx α := fun i =>
    if i.val = 0 then (false, st.Sgen i)
    else docsClassifyBus inp i (S i) (st.Sgen i) (st.Vmag i)
  let Vregulating : Fin N → Bool := fun i => (cls i).1
  let Sgen : Fin N → Cplx α := fun i => (cls i).2
  let pre : NRState α N := ⟨V, st.Vmag, st.Vang, S, Sgen⟩
  let serr : Fin N → Cplx α := fun i =>
    netInjection inp i (Sgen i) (st.Vmag i) - S i
  let mm := mismatchVec serr Vregulating
  match ops.linsolve ((N - 1) * 2) jac mm with
  | none => (pre, none)
  | some δ => (pre, some (δ, applyCorrections inp pre Vregulating δ))

/-- One pass of the condensed copy (src/Python/NewtonRaphson.py, lines
160-219): no reactive limits (`Vregulating[i] = Vreg_declared[i]`), no
voltage-dependent loads, and the correction step snaps every declared bus to
its setpoint. -/
def condAdvance {N : ℕ} (ops : Ops α) (Ybus : Fin N → Fin N → Cplx α)
    (Vreg_mag : Fin N → Option α) (Sload : Fin N → Cplx α) (st : NRState α N) :
    NRState α N × Option ((Fin ((N - 1) * 2) → α) × NRState α N) :=
  let jac := calculate_Jacobian ops Ybus st.Vmag st.Vang
  let V : Fin N → Cplx α := fun i =>
    if i.val = 0 then st.V i else polar ops (st.Vmag i) (st.Vang i)
  let S : Fin N → Cplx α := fun i => busPower Ybus V i
  -- "assume no limits - removed from this condensed version."
  let Vregulating : Fin N → Bool := fun i =>
    if i.val = 0 then false else (Vreg_mag i).isSome
  let serr : Fin N → Cplx α := fun i => st.Sgen i - Sload i - S i
  let mm := mismatchVec serr Vregulating
  let pre : NRState α N := ⟨V, st.Vmag, st.Vang, S, st.Sgen⟩
  match ops.linsolve ((N - 1) * 2) jac mm with
  | none => (pre, none)
  | some δ =>
      (pre, some (δ,
        { pre with
          Vang := fun i =>
            if h : i.val = 0 then pre.Vang i else pre.Vang i + δ (pIdx i h),
          Vmag := fun i =>
            if h : i.val = 0 then pre.Vmag i
            else
              match Vreg_mag i with
              | some vreg => vreg
              | none => pre.Vmag i + δ (qIdx i h) }))

/-- Convergence test `max(max(del_val), -min(del_val)) <= TOLERANCE` (line 411
of the original); `max` on an empty Python list raises `ValueError`. -/
def tolTest {n : ℕ} (d : Fin n → α) : Except PyErr Bool :=
  match pyMax (List.ofFn d), pyMin (List.ofFn d) with
  | some M, some m => .ok (if max M (-m) ≤ TOLERANCE α then true else false)
  | _, _ => .error .valueError

/-- Post-loop finalization of the original and condensed copies (lines 423-440
of the original): recompute `V[i]` from `(Vmag, Vang)` for the non-slack buses
and return `[V, S, solved]`; `S` is returned as last computed inside the loop. -/
def finishRes (ops : Ops α) {N : ℕ} (st : NRState α N) (solved : Bool) : NRRes α :=
  let V : Fin N → Cplx α := fun i =>
    if i.val = 0 then st.V i else polar ops (st.Vmag i) (st.Vang i)
  { V := List.ofFn V, S := List.ofFn st.S, solved := solved, Sgen := List.ofFn st.Sgen }

/-- Main loop shared by the original and condensed copies (lines 199-419 of
the original, lines 160-276 of the condensed copy; the loop text is identical
in both): run a pass; a singular Jacobian raises `LinAlgError` with no handler;
otherwise increment the iteration count and exit with `solved=false` once it
reaches `MAX_ITERATIONS` (checked first, short-circuiting the tolerance test)
or with `solved=true` when the correction passes the tolerance test.  Errors
carry the contents of the caller-aliased `Sgen` at the moment of the raise.
The fuel argument only forces termination; the loop itself always exits by
pass `MAX_ITERATIONS`, so the fuel-exhausted branch is unreachable from the
entry point. -/
def nrLoopRaise (ops : Ops α) {N : ℕ}
    (adv : NRState α N → NRState α N × Option ((Fin ((N - 1) * 2) → α) × NRState α N)) :
    ℕ → ℕ → NRState α N → Except (PyErr × List (Cplx α)) (NRRes α)
  | 0, _, st => .error (.outOfFuel, List.ofFn st.Sgen)
  | fuel + 1, iter, st =>
      match (adv st).2 with
      | none => .error (.linAlgError, List.ofFn (adv st).1.Sgen)
      | some (δ, post) =>
          let iter := iter + 1
          if MAX_ITERATIONS ≤ iter then .ok (finishRes ops post false)
          else
            match tolTest δ with
            | .error e => .error (e, List.ofFn post.Sgen)
            | .ok true => .ok (finishRes ops post true)
            | .ok false => nrLoopRaise ops adv fuel iter post

/-- The full solver of src/original code/NewtonRaphson.py, from the already
shape-checked inputs. -/
def origSolver (ops : Ops α) {N : ℕ} (inp : Inputs α N) :
    Except (PyErr × List (Cplx α)) (NRRes α) :=
  nrLoopRaise ops (advanceOrig ops inp) MAX_ITERATIONS 0
    (initState ops inp.Vreg_mag inp.initial_V inp.Sgen)

/-- The condensed solver of src/Python/NewtonRaphson.py, from the already
shape-checked inputs of its reduced signature. -/
def condSolver (ops : Ops α) {N : ℕ} (Ybus : Fin N → Fin N → Cplx α)
    (Vreg_mag : Fin N → Option α) (Sgen Sload : Fin N → Cplx α)
    (initial_V : Option (Fin N → Cplx α)) :
    Except (PyErr × List (Cplx α)) (NRRes α) :=
  nrLoopRaise ops (condAdvance ops Ybus Vreg_mag Sload) MAX_ITERATIONS 0
    (initState ops Vreg_mag initial_V Sgen)

/-- Post-loop finalization of the docs copy (lines 324-331): recompute `V`
from the settled `(Vmag, Vang)` and then recompute `S = V * conj(Y V)` from
that final `V`. -/
def docsFinish (ops : Ops α) {N : ℕ} (Ybus : Fin N → Fin N → Cplx α)
    (st : NRState α N) (solved : Bool) : NRRes α :=
  let V : Fin N → Cplx α := fun i =>
    if i.val = 0 then st.V i else polar ops (st.Vmag i) (st.Vang i)
  let S : Fin N → Cplx α := fun i => busPower Ybus V i
  { V := List.ofFn V, S := List.ofFn S, solved := solved, Sgen := List.ofFn st.Sgen }

/-- Main loop of the docs copy (lines 190-322): a singular Jacobian is caught
(`except numpy.linalg.LinAlgError: break`) before any correction is applied;
the convergence measure is `inf` when the correction vector is empty; the
max-iterations exit is checked before the tolerance exit. -/
def docsLoop (ops : Ops α) {N : ℕ} (inp : Inputs α N) :
    ℕ → ℕ → NRState α N → NRRes α
  | 0, _, st => docsFinish ops inp.Ybus st false
  | fuel + 1, iter, st =>
      match docsAdvance ops inp st with
      | (pre, none) => docsFinish ops inp.Ybus pre false
      | (_, some (δ, post)) =>
          let iter := iter + 1
          let conv : Bool :=
            match tolTest δ with
            | .ok b => b
            | .error _ => false
          if MAX_ITERATIONS ≤ iter then docsFinish ops inp.Ybus post false
          else if conv then docsFinish ops inp.Ybus post true
          else docsLoop ops inp fuel iter post

/-- The docs-copy solver of src/docs/newton_raphson.py, from the already
shape-checked inputs; it never propagates an exception out of the loop. -/
def docsSolver (ops : Ops α) {N : ℕ} (inp : Inputs α N) : NRRes α :=
  docsLoop ops inp MAX_ITERATIONS 0
    (docsInitState ops inp.Vreg_mag inp.initial_V inp.Sgen)

/-- Shape validation of the full solver (lines 46-92 of the original copy):
`num_buses = len(Ybus_matrix)`; `Ybus_matrix[0]` raises `IndexError` on an
empty list; each subsequent length test raises a bare `ValueError`.  The
optional arguments are checked only when supplied (the `Qgen_max` test
precedes the `Qgen_min` test, as in the source). -/
def validateShapes (Ybus : List (List (Cplx α))) (Vreg_mag : List (Option α))
    (Sgen : List (Cplx α)) (Sload : Option (List (Cplx α)))
    (Sload_const_I Sload_const_Y : Option (List (Option (Cplx α))))
    (Qgen_min Qgen_max : Option (List (Option α)))
    (Qgen_cap : Option (List (Option (α → α → Option (α × α))))) :
    Except PyErr Unit :=
  let n := Ybus.length
  match Ybus.head? with
  | none => .error .indexError
  | some row0 =>
    if row0.length ≠ n then .error .valueError
    else if Vreg_mag.length ≠ n then .error .valueError
    else
      let SloadL := Sload.getD (List.replicate n (0 : Cplx α))
      if Sgen.length ≠ n ∨ SloadL.length ≠ n then .error .valueError
      else if (Sload_const_I.map (fun l => decide (l.length ≠ n))).getD false then
        .error .valueError
      else if (Sload_const_Y.map (fun l => decide (l.length ≠ n))).getD false then
        .error .valueError
      else if (Qgen_max.map (fun l => decide (l.length ≠ n))).getD false then
        .error .valueError
      else if (Qgen_min.map (fun l => decide (l.length ≠ n))).getD false then
        .error .valueError
      else if (Qgen_cap.map (fun l => decide (l.length ≠ n))).getD false then
        .error .valueError
      else .ok ()

/-- List arguments read into the function-based `Inputs` record: index `i` of
the run reads position `i < num_buses` of the corresponding list, exactly the
positions the Python loops read. -/
def inputsOfLists (Ybus : List (List (Cplx α))) (Vreg_mag : List (Option α))
    (Sgen : List (Cplx α)) (Sload : Option (List (Cplx α)))
    (Sload_const_I Sload_const_Y : Option (List (Option (Cplx α))))
    (Qgen_min Qgen_max : Option (List (Option α)))
    (Qgen_cap : Option (List (Option (α → α → Option (α × α)))))
    (initial_V : Option (List (Cplx α))) : Inputs α Ybus.length :=
  let n := Ybus.length
  { Ybus := fun i j => (Ybus.getD i.val []).getD j.val 0
    Vreg_mag := fun i => Vreg_mag.getD i.val none
    Sgen := fun i => Sgen.getD i.val 0
    Sload := fun i => (Sload.getD (List.replicate n (0 : Cplx α))).getD i.val 0
    Sload_const_I := Sload_const_I.map (fun l => fun i => l.getD i.val none)
    Sload_const_Y := Sload_const_Y.map (fun l => fun i => l.getD i.val none)
    Qgen_min := Qgen_min.map (fun l => fun i => l.getD i.val none)
    Qgen_max := Qgen_max.map (fun l => fun i => l.getD i.val none)
    Qgen_cap := Qgen_cap.map (fun l => fun i => l.getD i.val none)
    initial_V := initial_V.map (fun l => fun i => l.getD i.val 0) }

/-- The full solver entry point on its list-level signature: shape validation
runs first (before any iteration and before the state, including the aliased
`Sgen`, is touched), then the iteration core.  Error results carry the
contents of the caller-visible `Sgen` at the moment of the raise. -/
def GenericNewtonRaphson (ops : Ops α) (Ybus : List (List (Cplx α)))
    (Vreg_mag : List (Option α)) (Sgen : List (Cplx α))
    (Sload : Option (List (Cplx α)))
    (Sload_const_I Sload_const_Y : Option (List (Option (Cplx α))))
    (Qgen_min Qgen_max : Option (List (Option α)))
    (Qgen_cap : Option (List (Option (α → α → Option (α × α)))))
    (initial_V : Option (List (Cplx α))) :
    Except (PyErr × List (Cplx α)) (NRRes α) :=
  match validateShapes Ybus Vreg_mag Sgen Sload Sload_const_I Sload_const_Y
      Qgen_min Qgen_max Qgen_cap with
  | .error e => .error (e, Sgen)
  | .ok _ =>
      origSolver ops
        (inputsOfLists Ybus Vreg_mag Sgen Sload Sload_const_I Sload_const_Y
          Qgen_min Qgen_max Qgen_cap initial_V)

/-- Modelled from the spec: "Fails with ShapeError if the matrix is not
square".  A nested-list matrix is square when every row has length equal to
the number of rows. -/
def isSquareSpec {β : Type} (M : List (List β)) : Bool :=
  M.all (fun row => row.length == M.length)

/-- State reached after `k` successful passes of a step function (`none` once
a pass hits a singular linear solve). -/
def runPasses {N : ℕ}
    (adv : NRState α N → NRState α N × Option ((Fin ((N - 1) * 2) → α) × NRState α N)) :
    ℕ → NRState α N → Option (NRState α N)
  | 0, st => some st
  | k + 1, st =>
      match (adv st).2 with
      | none => none
      | some (_, post) => runPasses adv k post

/-- Correction vector produced by pass `k + 1` of a run (indexed from `k = 0`),
along the trajectory of the step function. -/
def deltaAt {N : ℕ}
    (adv : NRState α N → NRState α N × Option ((Fin ((N - 1) * 2) → α) × NRState α N))
    (st0 : NRState α N) (k : ℕ) : Option (Fin ((N - 1) * 2) → α) :=
  (runPasses adv k st0).bind fun st => ((adv st).2).map Prod.fst

/-- Modelled from the spec: "recomputing `S = V · conj(Y·V)` from the returned
`V` must match returned `S`" — the self-consistency predicate on a result. -/
def selfConsistent {N : ℕ} (Ybus : Fin N → Fin N → Cplx α) (r : NRRes α) : Prop :=
  r.S = List.ofFn (fun i : Fin N => busPower Ybus (fun j => r.V.getD j.val 0) i)

/-- Oracle pack over `ℚ` with inert trig primitives and a linear-solve oracle
returning the zero correction; used to instantiate universally quantified
theorems at computable inputs. -/
def qOps : Ops ℚ :=
  { sin := fun _ => 0
    cos := fun _ => 1
    cabs := fun z => z.re
    angle := fun _ => 0
    linsolve := fun _ _ _ => some (fun _ => 0) }

/-- Oracle pack over `ℚ` whose linear solve always reports a singular matrix. -/
def qOpsSing : Ops ℚ :=
  { sin := fun _ => 0
    cos := fun _ => 1
    cabs := fun z => z.re
    angle := fun _ => 0
    linsolve := fun _ _ _ => none }

/-- Exact solve of a 2x2 linear system by the inverse-matrix formula: the
mathematical function `numpy.matmul(numpy.linalg.inv(J), m)` computes for the
2x2 systems arising in the concrete runs below (`none` on a singular matrix,
where `numpy.linalg.inv` raises `LinAlgError`). -/
noncomputable def linsolveReal : (n : ℕ) → (Fin n → Fin n → ℝ) → (Fin n → ℝ) →
    Option (Fin n → ℝ)
  | 2 => fun J m =>
      let d := J 0 0 * J 1 1 - J 0 1 * J 1 0
      if d = 0 then none
      else some ![(J 1 1 * m 0 - J 0 1 * m 1) / d, (J 0 0 * m 1 - J 1 0 * m 0) / d]
  | _ => fun _ _ => none

/-- The genuine numeric primitives over `ℝ`: `math.sin`/`math.cos` are the real
sine and cosine, `abs(complex)` is `sqrt(re^2 + im^2)`, and `numpy.angle` is
the principal argument `atan2(im, re)`. -/
noncomputable def realOps : Ops ℝ :=
  { sin := Real.sin
    cos := Real.cos
    cabs := fun z => Real.sqrt (z.re ^ 2 + z.im ^ 2)
    angle := fun z => Complex.arg ⟨z.re, z.im⟩
    linsolve := linsolveReal }

section Helpers

theorem rowBus_pIdx {N : ℕ} (i : Fin N) (h : i.val ≠ 0) : rowBus (pIdx i h) = i := by
  have hi := i.isLt
  simp only [rowBus, pIdx]
  rw [dif_pos (show i.val - 1 < N - 1 by omega)]
  apply Fin.ext
  show i.val - 1 + 1 = i.val
  omega

theorem rowBus_qIdx {N : ℕ} (i : Fin N) (h : i.val ≠ 0) : rowBus (qIdx i h) = i := by
  have hi := i.isLt
  simp only [rowBus, qIdx]
  rw [dif_neg (show ¬(i.val + N - 2 < N - 1) by omega)]
  apply Fin.ext
  show i.val + N - 2 - (N - 1) + 1 = i.val
  omega

theorem rowIsQ_pIdx {N : ℕ} (i : Fin N) (h : i.val ≠ 0) : rowIsQ (pIdx i h) = false := by
  have hi := i.isLt
  simp only [rowIsQ, pIdx]
  rw [decide_eq_false_iff_not]
  omega

theorem rowIsQ_qIdx {N : ℕ} (i : Fin N) (h : i.val ≠ 0) : rowIsQ (qIdx i h) = true := by
  have hi := i.isLt
  simp only [rowIsQ, qIdx]
  rw [decide_eq_true_eq]
  omega

theorem sum_erase_eq_ite {N : ℕ} (i : Fin N) (f : Fin N → α) :
    ∑ k ∈ Finset.univ.erase i, f k = ∑ k, if k = i then 0 else f k := by
  calc ∑ k ∈ Finset.univ.erase i, f k
      = ∑ k ∈ Finset.univ.erase i, (if k = i then 0 else f k) :=
        Finset.sum_congr rfl (fun k hk => by rw [if_neg (Finset.ne_of_mem_erase hk)])
    _ = ∑ k, if k = i then 0 else f k :=
        Finset.sum_erase _ (by simp)

end Helpers

/-- Claim C1.  The Jacobian builder fills the four `(N-1) x (N-1)` blocks
exactly as specified: writing `|V| = Vmag`, `δ = Vang`, `|Y| = cabs ∘ Ybus`,
`θ = angle ∘ Ybus`, the `∂P/∂δ` off-diagonal entry is
`|V_i||Y_ij||V_j| sin(δ_i - δ_j - θ_ij)` and its diagonal
`-|V_i| Σ_{k≠i} |Y_ik||V_k| sin(δ_i - δ_k - θ_ik)`; the `∂P/∂|V|` diagonal is
`|V_i||Y_ii| cos(θ_ii)` plus a sum over all `k` (slack and `k = i` included);
the `∂Q/∂δ` diagonal sums over `k ≠ i` with `cos` and factor `+|V_i|`; the
`∂Q/∂|V|` diagonal is `-|V_i||Y_ii| sin(θ_ii)` plus a sum over all `k`; the
remaining off-diagonals carry the quoted signs. -/
theorem calculate_Jacobian_matches_spec (ops : Ops α) {N : ℕ}
    (Ybus : Fin N → Fin N → Cplx α) (Vmag Vang : Fin N → α) (i j : Fin N)
    (hi : i.val ≠ 0) (hj : j.val ≠ 0) :
    (calculate_Jacobian ops Ybus Vmag Vang (pIdx i hi) (pIdx j hj) =
      if i = j then
        -Vmag i * ∑ k ∈ Finset.univ.erase i,
          ops.cabs (Ybus i k) * Vmag k * ops.sin (Vang i - Vang k - ops.angle (Ybus i k))
      else
        Vmag i * ops.cabs (Ybus i j) * Vmag j *
          ops.sin (Vang i - Vang j - ops.angle (Ybus i j))) ∧
    (calculate_Jacobian ops Ybus Vmag Vang (pIdx i hi) (qIdx j hj) =
      if i = j then
        Vmag i * ops.cabs (Ybus i i) * ops.cos (ops.angle (Ybus i i)) +
          ∑ k, ops.cabs (Ybus i k) * Vmag k *
            ops.cos (Vang i - Vang k - ops.angle (Ybus i k))
      else
        Vmag i * ops.cabs (Ybus i j) *
          ops.cos (Vang i - Vang j - ops.angle (Ybus i j))) ∧
    (calculate_Jacobian ops Ybus Vmag Vang (qIdx i hi) (pIdx j hj) =
      if i = j then
        Vmag i * ∑ k ∈ Finset.univ.erase i,
          ops.cabs (Ybus i k) * Vmag k * ops.cos (Vang i - Vang k - ops.angle (Ybus i k))
      else
        -Vmag i * ops.cabs (Ybus i j) * Vmag j *
          ops.cos (Vang i - Vang j - ops.angle (Ybus i j))) ∧
    (calculate_Jacobian ops Ybus Vmag Vang (qIdx i hi) (qIdx j hj) =
      if i = j then
        -Vmag i * ops.cabs (Ybus i i) * ops.sin (ops.angle (Ybus i i)) +
          ∑ k, ops.cabs (Ybus i k) * Vmag k *
            ops.sin (Vang i - Vang k - ops.angle (Ybus i k))
      else
        Vmag i * ops.cabs (Ybus i j) *
          ops.sin (Vang i - Vang j - ops.angle (Ybus i j))) := by
  simp only [calculate_Jacobian, rowBus_pIdx, rowBus_qIdx, rowIsQ_pIdx, rowIsQ_qIdx]
  refine ⟨?_, ?_, ?_, ?_⟩ <;> by_cases hij : i = j <;>
    first
      | (subst hij; simp only [eq_self_iff_true, ite_true, ← sum_erase_eq_ite]; try ring)
      | (simp only [if_neg hij])

theorem fin2_one_ne : (1 : Fin 2).val ≠ 0 := by decide

/-- Witness for C1: the theorem applied to a concrete system. -/
theorem calculate_Jacobian_matches_spec_witness :
    calculate_Jacobian qOps (fun _ _ => (0 : Cplx ℚ)) (fun _ => 1) (fun _ => 0)
      (pIdx (1 : Fin 2) fin2_one_ne) (pIdx (1 : Fin 2) fin2_one_ne) = 0 := by
  have h := (calculate_Jacobian_matches_spec qOps (fun _ _ => (0 : Cplx ℚ))
    (fun _ => 1) (fun _ => 0) 1 1 fin2_one_ne fin2_one_ne).1
  rw [h, if_pos rfl]
  simp [qOps]

/-- The dynamic-capability try block of the original copy always raises: the
user callback may raise itself, and otherwise the comparison of the complex
`S[i].imag + Sload[i]` with a float raises `TypeError`. -/
theorem dynBlock_raises {N : ℕ} (inp : Inputs α N) (i : Fin N)
    (capf : α → α → Option (α × α)) (S_i : Cplx α) (Vmag_i vreg : α)
    (under over : Bool) (sg : Cplx α) :
    dynBlock inp i capf S_i Vmag_i vreg under over sg = .error .capability ∨
    dynBlock inp i capf S_i Vmag_i vreg under over sg = .error .typeError := by
  unfold dynBlock
  cases capf Vmag_i sg.re with
  | none => left; rfl
  | some p => right; rfl

/-- The caught exception means `applyDynCap` never changes the accumulated
classification. -/
theorem applyDynCap_noop {N : ℕ} (inp : Inputs α N) (i : Fin N)
    (capf : α → α → Option (α × α)) (S_i : Cplx α) (Vmag_i vreg : α)
    (acc : Bool × Bool × Cplx α) :
    applyDynCap inp i capf S_i Vmag_i vreg acc = acc := by
  unfold applyDynCap
  rcases dynBlock_raises inp i capf S_i Vmag_i vreg acc.1 acc.2.1 acc.2.2 with h | h <;>
    rw [h]

/-- Claim C6 (code bug).  In the original copy the dynamic-capability check is
a no-op: the classifier behaves exactly as if `Qgen_cap` had not been
supplied, because the comparison `(S[i].imag + Sload[i]) <= Qmin_val` adds the
full complex `Sload[i]` (instead of `Sload[i].imag`) and comparing a complex
with a float raises `TypeError`, which the blanket `except` swallows before
any dynamic limit can be applied.  The claimed under/over tests and pinning to
the dynamic limits therefore never happen. -/
theorem classifyBus_dynamic_check_is_noop {N : ℕ} (inp : Inputs α N) (i : Fin N)
    (S_i Sgen_i : Cplx α) (Vmag_i : α) :
    classifyBus inp i S_i Sgen_i Vmag_i =
      classifyBus { inp with Qgen_cap := none } i S_i Sgen_i Vmag_i := by
  have hR : optAt ({ inp with Qgen_cap := none } : Inputs α N).Qgen_cap i = none := rfl
  simp only [classifyBus, hR, applyDynCap_noop]
  cases hreg : inp.Vreg_mag i with
  | none => rfl
  | some vreg =>
    cases hcapa : optAt inp.Qgen_cap i with
    | none => rfl
    | some capf => simp only [applyDynCap_noop]

/-- Concrete input exercising the static reactive limits of bus 1: regulated
at `1`, `Qgen_min = -1`, `Qgen_max = 1`, `Sload[1] = i`. -/
def inpC7 : Inputs ℚ 2 :=
  { Ybus := fun _ _ => 0
    Vreg_mag := ![some 1, some 1]
    Sgen := fun _ => 0
    Sload := ![0, ⟨0, 1⟩]
    Sload_const_I := none
    Sload_const_Y := none
    Qgen_min := some ![none, some (-1)]
    Qgen_max := some ![none, some 1]
    Qgen_cap := none
    initial_V := none }

/-- Counterexample to claim C7 as stated.  At `S[1] = -3i`, `Vmag[1] = 9/10`:
the under-limit condition `S[1].imag + Sload[1].imag ≤ Qgen_min[1]`
(`-2 ≤ -1`) holds, so the claim demands `Sgen[1].imag` pinned to
`Qgen_min[1] = -1`; but the over-limit condition (`Vmag[1] < Vreg_mag[1]`)
also fires, and the later `Qgen_max` assignment overwrites the pin, leaving
`Sgen[1].imag = 1 ≠ -1`. -/
theorem classifyBus_both_limits_counterexample :
    ((0 : Cplx ℚ) - ⟨0, 3⟩).im + (inpC7.Sload 1).im ≤ -1 ∧
    classifyBus inpC7 1 ((0 : Cplx ℚ) - ⟨0, 3⟩) 0 (9 / 10) = (false, ⟨0, 1⟩) ∧
    ((⟨0, 1⟩ : Cplx ℚ).im ≠ -1) := by
  refine ⟨?_, ?_, by norm_num⟩
  · norm_num [inpC7, Cplx.sub_def, Cplx.re_zero, Cplx.im_zero, Matrix.cons_val_one,
      Matrix.head_cons]
  · simp only [classifyBus, inpC7, optAt, Matrix.cons_val_one, Matrix.head_cons,
      Cplx.sub_def, Cplx.re_zero, Cplx.im_zero]
    norm_num

/-- Claim C7, amended.  For a declared-regulated bus with both static limits
set (and no capability function): `under` is exactly
`S[i].imag + Sload[i].imag ≤ Qgen_min[i] ∨ Vmag[i] > Vreg_mag[i]`, `over`
exactly `S[i].imag + Sload[i].imag ≥ Qgen_max[i] ∨ Vmag[i] < Vreg_mag[i]`;
`Sgen[i].imag` is pinned to `Qgen_max[i]` when `over`, else to `Qgen_min[i]`
when `under` (an over-limit trip overwrites an under-limit pin), else left
unchanged; `Vregulating[i]` is true exactly when neither mark is set; and the
reactive mismatch entry of the bus is `0` when `Vregulating[i]`, else
`Serr[i].imag` (the real entry always `Serr[i].real`). -/
theorem classifyBus_static_limits {N : ℕ} (inp : Inputs α N) (i : Fin N)
    (S_i Sgen_i : Cplx α) (Vmag_i vreg qmin qmax : α)
    (hreg : inp.Vreg_mag i = some vreg)
    (hmin : optAt inp.Qgen_min i = some qmin)
    (hmax : optAt inp.Qgen_max i = some qmax)
    (hcap : optAt inp.Qgen_cap i = none) :
    (classifyBus inp i S_i Sgen_i Vmag_i =
      ((!decide (S_i.im + (inp.Sload i).im ≤ qmin ∨ vreg < Vmag_i) &&
        !decide (qmax ≤ S_i.im + (inp.Sload i).im ∨ Vmag_i < vreg)),
       ⟨Sgen_i.re,
        if qmax ≤ S_i.im + (inp.Sload i).im ∨ Vmag_i < vreg then qmax
        else if S_i.im + (inp.Sload i).im ≤ qmin ∨ vreg < Vmag_i then qmin
        else Sgen_i.im⟩)) ∧
    (∀ (serr : Fin N → Cplx α) (vr : Fin N → Bool) (h : i.val ≠ 0),
      mismatchVec serr vr (qIdx i h) = (if vr i then 0 else (serr i).im) ∧
      mismatchVec serr vr (pIdx i h) = (serr i).re) := by
  constructor
  · simp only [classifyBus, hreg, hmin, hmax, hcap]
    by_cases hu : S_i.im + (inp.Sload i).im ≤ qmin ∨ vreg < Vmag_i <;>
      by_cases ho : qmax ≤ S_i.im + (inp.Sload i).im ∨ Vmag_i < vreg <;>
        simp [hu, ho]
  · intro serr vr h
    constructor
    · simp only [mismatchVec, rowBus_qIdx, rowIsQ_qIdx, if_true]
    · simp only [mismatchVec, rowBus_pIdx, rowIsQ_pIdx, Bool.false_eq_true, if_false]

/-- Witness for the amended C7: the theorem applied at a concrete bus. -/
theorem classifyBus_static_limits_witness :
    classifyBus inpC7 1 ⟨0, -1/2⟩ 0 1 = (true, 0) ∧
    (∀ (serr : Fin 2 → Cplx ℚ) (vr : Fin 2 → Bool),
      mismatchVec serr vr (qIdx 1 fin2_one_ne) = (if vr 1 then 0 else (serr 1).im)) := by
  have h := classifyBus_static_limits inpC7 1 ⟨0, -1/2⟩ 0 1 1 (-1) 1
    (by norm_num [inpC7, Matrix.cons_val_one, Matrix.head_cons])
    (by norm_num [inpC7, optAt, Matrix.cons_val_one, Matrix.head_cons])
    (by norm_num [inpC7, optAt, Matrix.cons_val_one, Matrix.head_cons])
    (by norm_num [inpC7, optAt])
  refine ⟨?_, fun serr vr => (h.2 serr vr fin2_one_ne).1⟩
  rw [h.1]
  norm_num [inpC7, Cplx.zero_def, Matrix.cons_val_one, Matrix.head_cons]

/-- With no static or dynamic reactive limits supplied, the classifier of the
full solver reduces to `Vregulating[i] = Vreg_declared[i]` with `Sgen`
untouched — exactly the condensed copy's comment "assume no limits". -/
theorem classifyBus_noLimits {N : ℕ} (inp : Inputs α N)
    (h3 : inp.Qgen_min = none) (h4 : inp.Qgen_max = none) (h5 : inp.Qgen_cap = none)
    (i : Fin N) (S_i sg : Cplx α) (v : α) :
    classifyBus inp i S_i sg v = ((inp.Vreg_mag i).isSome, sg) := by
  simp only [classifyBus, optAt, h3, h4, h5]
  cases inp.Vreg_mag i <;> rfl

/-- With no constant-current or constant-admittance loads, the net injection is
plainly `Sgen[i] - Sload[i]`. -/
theorem netInjection_noConst {N : ℕ} (inp : Inputs α N)
    (h1 : inp.Sload_const_I = none) (h2 : inp.Sload_const_Y = none)
    (i : Fin N) (sg : Cplx α) (v : α) :
    netInjection inp i sg v = sg - inp.Sload i := by
  simp [netInjection, optAt, h1, h2]

/-- When every declared bus is regulating, the correction step of the full
solver snaps declared buses to their setpoint and steps the others — the
condensed copy's correction step. -/
theorem applyCorrections_all_regulating {N : ℕ} (inp : Inputs α N)
    (st : NRState α N) (δ : Fin ((N - 1) * 2) → α) (vr : Fin N → Bool)
    (hvr : ∀ i : Fin N, i.val ≠ 0 → vr i = (inp.Vreg_mag i).isSome) :
    applyCorrections inp st vr δ =
      { st with
        Vang := fun i =>
          if h : i.val = 0 then st.Vang i else st.Vang i + δ (pIdx i h),
        Vmag := fun i =>
          if h : i.val = 0 then st.Vmag i
          else
            match inp.Vreg_mag i with
            | some vreg => vreg
            | none => st.Vmag i + δ (qIdx i h) } := by
  simp only [applyCorrections]
  congr 1
  funext i
  by_cases h : i.val = 0
  · rw [dif_pos h, dif_pos h]
  · rw [dif_neg h, dif_neg h]
    cases hv : inp.Vreg_mag i with
    | none => rfl
    | some vreg =>
      have : vr i = true := by rw [hvr i h, hv]; rfl
      rw [this]
      rfl

/-- On the condensed signature, one pass of the full solver is one pass of the
condensed solver. -/
theorem advanceOrig_eq_cond (ops : Ops α) {N : ℕ} (inp : Inputs α N)
    (h1 : inp.Sload_const_I = none) (h2 : inp.Sload_const_Y = none)
    (h3 : inp.Qgen_min = none) (h4 : inp.Qgen_max = none) (h5 : inp.Qgen_cap = none) :
    advanceOrig ops inp = condAdvance ops inp.Ybus inp.Vreg_mag inp.Sload := by
  funext st
  have happ : ∀ (pre : NRState α N) (δ : Fin ((N - 1) * 2) → α),
      applyCorrections inp pre
        (fun i => if i.val = 0 then false else (inp.Vreg_mag i).isSome) δ =
      { pre with
        Vang := fun i =>
          if h : i.val = 0 then pre.Vang i else pre.Vang i + δ (pIdx i h),
        Vmag := fun i =>
          if h : i.val = 0 then pre.Vmag i
          else
            match inp.Vreg_mag i with
            | some vreg => vreg
            | none => pre.Vmag i + δ (qIdx i h) } := fun pre δ =>
    applyCorrections_all_regulating inp pre δ _ (fun i h => by rw [if_neg h])
  simp only [advanceOrig, condAdvance, classifyBus_noLimits inp h3 h4 h5,
    netInjection_noConst inp h1 h2, apply_ite, ite_self, happ]

/-- Claim C10.  Restricted to the condensed copy's signature — no
constant-current or constant-admittance loads and no static or dynamic
reactive limits — the full solver of src/original code/NewtonRaphson.py and
the condensed solver of src/Python/NewtonRaphson.py return the same
`(V, S, solved)` (and leave the aliased `Sgen` identical), including identical
exception behavior. -/
theorem condensed_solver_refines_full (ops : Ops α) {N : ℕ} (inp : Inputs α N)
    (h1 : inp.Sload_const_I = none) (h2 : inp.Sload_const_Y = none)
    (h3 : inp.Qgen_min = none) (h4 : inp.Qgen_max = none) (h5 : inp.Qgen_cap = none) :
    origSolver ops inp =
      condSolver ops inp.Ybus inp.Vreg_mag inp.Sgen inp.Sload inp.initial_V := by
  unfold origSolver condSolver
  rw [advanceOrig_eq_cond ops inp h1 h2 h3 h4 h5]

/-- A no-limit two-bus input over `ℚ` for instantiating the universally
quantified solver theorems. -/
def inpW : Inputs ℚ 2 :=
  { Ybus := fun _ _ => 0
    Vreg_mag := ![some 1, none]
    Sgen := fun _ => 0
    Sload := fun _ => 0
    Sload_const_I := none
    Sload_const_Y := none
    Qgen_min := none
    Qgen_max := none
    Qgen_cap := none
    initial_V := none }

/-- Witness for C10: the equivalence applied to a concrete input. -/
theorem condensed_solver_refines_full_witness :
    origSolver qOps inpW =
      condSolver qOps inpW.Ybus inpW.Vreg_mag inpW.Sgen inpW.Sload inpW.initial_V :=
  condensed_solver_refines_full qOps inpW rfl rfl rfl rfl rfl

theorem runPasses_succ_of_some {N : ℕ}
    {adv : NRState α N → NRState α N × Option ((Fin ((N - 1) * 2) → α) × NRState α N)}
    {st post : NRState α N} {δ : Fin ((N - 1) * 2) → α}
    (h : (adv st).2 = some (δ, post)) (k : ℕ) :
    runPasses adv (k + 1) st = runPasses adv k post := by
  simp [runPasses, h]

theorem deltaAt_zero {N : ℕ}
    (adv : NRState α N → NRState α N × Option ((Fin ((N - 1) * 2) → α) × NRState α N))
    (st : NRState α N) :
    deltaAt adv st 0 = ((adv st).2).map Prod.fst := rfl

theorem deltaAt_succ_of_some {N : ℕ}
    {adv : NRState α N → NRState α N × Option ((Fin ((N - 1) * 2) → α) × NRState α N)}
    {st post : NRState α N} {δ : Fin ((N - 1) * 2) → α}
    (h : (adv st).2 = some (δ, post)) (k : ℕ) :
    deltaAt adv st (k + 1) = deltaAt adv post k := by
  simp [deltaAt, runPasses_succ_of_some h]

/-- Loop invariant behind claim C3: an `.ok` run of the raising loop reports
`solved = true` exactly when some pass numbered at most `MAX_ITERATIONS - 1`
produces a correction passing the tolerance test. -/
theorem nrLoop_solved_iff (ops : Ops α) {N : ℕ}
    (adv : NRState α N → NRState α N × Option ((Fin ((N - 1) * 2) → α) × NRState α N)) :
    ∀ (fuel iter : ℕ) (st : NRState α N) (r : NRRes α),
      fuel + iter = MAX_ITERATIONS →
      nrLoopRaise ops adv fuel iter st = .ok r →
      (r.solved = true ↔ ∃ k, k < MAX_ITERATIONS - 1 - iter ∧
        ∃ d, deltaAt adv st k = some d ∧ tolTest d = .ok true) := by
  intro fuel
  induction fuel with
  | zero =>
      intro iter st r _ h
      exact absurd h (by simp [nrLoopRaise])
  | succ n ih =>
      intro iter st r hfi h
      rw [show (n + 1 : ℕ) = Nat.succ n from rfl] at h
      simp only [nrLoopRaise] at h
      split at h
      next h2 => exact absurd h (by simp)
      next δ post h2 =>
        by_cases hmax : MAX_ITERATIONS ≤ iter + 1
        · rw [if_pos hmax] at h
          have hr : r = finishRes ops post false := by
            cases h; rfl
          subst hr
          simp only [finishRes]
          constructor
          · intro hfalse; exact absurd hfalse (by simp)
          · rintro ⟨k, hk, -⟩
            exact absurd hk (by simp [MAX_ITERATIONS] at hmax ⊢; omega)
        · rw [if_neg hmax] at h
          split at h
          next e h3 => exact absurd h (by simp)
          next h3 =>
            have hr : r = finishRes ops post true := by
              rw [← Except.ok.injEq]
              exact h.symm
            subst hr
            simp only [finishRes, true_iff]
            exact ⟨0, by simp [MAX_ITERATIONS] at hmax ⊢; omega,
              δ, by rw [deltaAt_zero, h2]; rfl, h3⟩
          next h3 =>
            rw [ih (iter + 1) post r (by omega) h]
            constructor
            · rintro ⟨k, hk, d, hd, ht⟩
              exact ⟨k + 1, by omega, d, by rw [deltaAt_succ_of_some h2]; exact hd, ht⟩
            · rintro ⟨k, hk, d, hd, ht⟩
              cases k with
              | zero =>
                  rw [deltaAt_zero, h2] at hd
                  simp only [Option.map_some'] at hd
                  rw [← Option.some.inj hd, h3] at ht
                  exact absurd ht (by simp)
              | succ k =>
                  rw [deltaAt_succ_of_some h2] at hd
                  exact ⟨k, by omega, d, hd, ht⟩

/-- The loop exits on its very first pass, reporting `solved = true`, as soon
as that pass produces a correction meeting the tolerance. -/
theorem nrLoop_first_pass_exit (ops : Ops α) {N : ℕ}
    (adv : NRState α N → NRState α N × Option ((Fin ((N - 1) * 2) → α) × NRState α N))
    (st post : NRState α N) (δ : Fin ((N - 1) * 2) → α)
    (h2 : (adv st).2 = some (δ, post)) (ht : tolTest δ = .ok true) :
    nrLoopRaise ops adv MAX_ITERATIONS 0 st = .ok (finishRes ops post true) := by
  show nrLoopRaise ops adv (Nat.succ 199) 0 st = _
  simp only [nrLoopRaise, h2, ht]
  rw [if_neg (by simp [MAX_ITERATIONS])]

/-- Claim C3.  For an `.ok` run of the full solver, `solved = true` holds
exactly when some pass `k + 1 ≤ 199` produces a correction vector `d` with
`max(max(d), -min(d)) ≤ 1e-9`.  In particular a run whose tolerance test first
passes on pass 200 exits through the max-iterations branch (which the source
checks first) and reports `solved = false`: the `Diverged` outcome covers both
never-satisfied tolerance and tolerance first satisfied on iteration 200. -/
theorem solver_solved_iff_tolerance_before_200 (ops : Ops α) {N : ℕ}
    (inp : Inputs α N) (r : NRRes α) (h : origSolver ops inp = .ok r) :
    r.solved = true ↔ ∃ k, k < MAX_ITERATIONS - 1 ∧
      ∃ d, deltaAt (advanceOrig ops inp)
        (initState ops inp.Vreg_mag inp.initial_V inp.Sgen) k = some d ∧
        tolTest d = .ok true := by
  have := nrLoop_solved_iff ops (advanceOrig ops inp) MAX_ITERATIONS 0
    (initState ops inp.Vreg_mag inp.initial_V inp.Sgen) r (by omega) h
  simpa using this

/-- Every pass of a run under `qOps` succeeds and returns the zero correction. -/
theorem advance_qOps_always {N : ℕ} (inp : Inputs ℚ N) (st : NRState ℚ N) :
    ∃ post, (advanceOrig qOps inp st).2 = some (fun _ => 0, post) := by
  simp only [advanceOrig, qOps]
  exact ⟨_, rfl⟩

/-- The zero correction passes the tolerance test. -/
theorem tolTest_zero_q : tolTest (n := 2) (fun _ => (0 : ℚ)) = .ok true := by
  simp only [tolTest, pyMax, pyMin, List.ofFn_succ, List.ofFn_zero, TOLERANCE]
  norm_num

/-- Witness for C3: a concrete `.ok` run together with the equivalence the
theorem yields for it. -/
theorem solver_solved_iff_tolerance_before_200_witness :
    ∃ r, origSolver qOps inpW = .ok r ∧
      (r.solved = true ↔ ∃ k, k < MAX_ITERATIONS - 1 ∧
        ∃ d, deltaAt (advanceOrig qOps inpW)
          (initState qOps inpW.Vreg_mag inpW.initial_V inpW.Sgen) k = some d ∧
          tolTest d = .ok true) := by
  obtain ⟨post, hp⟩ :=
    advance_qOps_always inpW (initState qOps inpW.Vreg_mag inpW.initial_V inpW.Sgen)
  have hrun : origSolver qOps inpW = .ok (finishRes qOps post true) :=
    nrLoop_first_pass_exit qOps (advanceOrig qOps inpW) _ post _ hp tolTest_zero_q
  exact ⟨_, hrun, solver_solved_iff_tolerance_before_200 qOps inpW _ hrun⟩

/-- Claim C9, amended.  A call converges in exactly one iteration precisely
when its first correction vector already meets the tolerance; in that case the
solver returns the state of pass 1 with `solved = true`.  (The original claim
asserted this happens for every warm start with a previously converged `V`;
the counterexample below refutes that.) -/
theorem solver_one_pass_of_first_delta_tol (ops : Ops α) {N : ℕ}
    (inp : Inputs α N) (post : NRState α N) (δ : Fin ((N - 1) * 2) → α)
    (h2 : (advanceOrig ops inp
      (initState ops inp.Vreg_mag inp.initial_V inp.Sgen)).2 = some (δ, post))
    (ht : tolTest δ = .ok true) :
    origSolver ops inp = .ok (finishRes ops post true) :=
  nrLoop_first_pass_exit ops (advanceOrig ops inp) _ post δ h2 ht

/-- Witness for the amended C9. -/
theorem solver_one_pass_of_first_delta_tol_witness :
    ∃ post : NRState ℚ 2, origSolver qOps inpW = .ok (finishRes qOps post true) := by
  obtain ⟨post, hp⟩ :=
    advance_qOps_always inpW (initState qOps inpW.Vreg_mag inpW.initial_V inpW.Sgen)
  exact ⟨post, solver_one_pass_of_first_delta_tol qOps inpW post _ hp tolTest_zero_q⟩

/-- Counterexample to claim C5.  With a caller-provided `initial_V` whose
slack entry has a nonzero imaginary part — here `initial_V[0] = 1 + i` with
`Vreg_mag[0] = 1` — the initialization keeps that imaginary part
(`V[0] = complex(Vreg_mag[0], initial_V[0].imag)`, line 116), so the slack
magnitude entering iteration 1 is `sqrt 2`, not the declared `1`; no later
statement of the source ever writes index 0 again. -/
theorem slack_magnitude_counterexample :
    (initState realOps (![some 1, none] : Fin 2 → Option ℝ)
      (some ![⟨1, 1⟩, ⟨1, 0⟩]) (fun _ => 0)).Vmag 0 = Real.sqrt 2 ∧
    Real.sqrt 2 ≠ 1 := by
  constructor
  · simp only [initState, realOps, Matrix.cons_val_zero]
    norm_num
  · intro h
    have h2 := Real.sq_sqrt (show (0:ℝ) ≤ 2 by norm_num)
    rw [h] at h2; norm_num at h2

/-- The slack-bus components of the state are preserved by every pass of the
full solver: no statement of the loop writes index 0. -/
theorem advanceOrig_preserves_slack (ops : Ops α) {N : ℕ} (inp : Inputs α N)
    (hN : 0 < N) (st post : NRState α N) (δ : Fin ((N - 1) * 2) → α)
    (h : (advanceOrig ops inp st).2 = some (δ, post)) :
    post.V ⟨0, hN⟩ = st.V ⟨0, hN⟩ ∧ post.Vmag ⟨0, hN⟩ = st.Vmag ⟨0, hN⟩ ∧
    post.Vang ⟨0, hN⟩ = st.Vang ⟨0, hN⟩ := by
  simp only [advanceOrig] at h
  split at h
  · exact absurd h (by simp)
  · next δ2 post2 hls =>
      rw [Option.some.injEq, Prod.mk.injEq] at h
      rw [← h.2]
      refine ⟨?_, ?_, ?_⟩
      · simp [applyCorrections]
      · simp [applyCorrections]
      · simp [applyCorrections]

/-- Slack preservation along any number of passes. -/
theorem runPasses_preserves_slack (ops : Ops α) {N : ℕ} (inp : Inputs α N)
    (hN : 0 < N) :
    ∀ (k : ℕ) (st st2 : NRState α N),
      runPasses (advanceOrig ops inp) k st = some st2 →
      st2.V ⟨0, hN⟩ = st.V ⟨0, hN⟩ ∧ st2.Vmag ⟨0, hN⟩ = st.Vmag ⟨0, hN⟩ ∧
      st2.Vang ⟨0, hN⟩ = st.Vang ⟨0, hN⟩ := by
  intro k
  induction k with
  | zero => intro st st2 h; cases h; exact ⟨rfl, rfl, rfl⟩
  | succ n ih =>
      intro st st2 h
      simp only [runPasses] at h
      rcases hs : (advanceOrig ops inp st).2 with _ | ⟨δ, post⟩
      · rw [hs] at h; exact absurd h (by simp)
      · rw [hs] at h
        simp only at h
        obtain ⟨e1, e2, e3⟩ := advanceOrig_preserves_slack ops inp hN st post δ hs
        obtain ⟨f1, f2, f3⟩ := ih post st2 h
        exact ⟨f1.trans e1, f2.trans e2, f3.trans e3⟩

/-- The returned `V[0]` of an `.ok` run of the raising loop is the slack entry
of the state it started from (never recomputed). -/
theorem nrLoop_slack_V (ops : Ops α) {N : ℕ} (inp : Inputs α N) (hN : 0 < N) :
    ∀ (fuel iter : ℕ) (st : NRState α N) (r : NRRes α),
      nrLoopRaise ops (advanceOrig ops inp) fuel iter st = .ok r →
      r.V.getD 0 0 = st.V ⟨0, hN⟩ := by
  intro fuel
  induction fuel with
  | zero => intro iter st r h; exact absurd h (by simp [nrLoopRaise])
  | succ n ih =>
      intro iter st r h
      rw [show (n + 1 : ℕ) = Nat.succ n from rfl] at h
      simp only [nrLoopRaise] at h
      split at h
      next hs => exact absurd h (by simp)
      next δ post hs =>
        obtain ⟨e1, _, _⟩ := advanceOrig_preserves_slack ops inp hN st post δ hs
        have hfin : ∀ b : Bool, (finishRes ops post b).V.getD 0 0 = st.V ⟨0, hN⟩ := by
          intro b
          simp only [finishRes, List.getD_eq_getElem?_getD, List.getElem?_ofFn,
            List.ofFnNthVal]
          rw [dif_pos hN]
          simp only [Option.getD_some, if_true]
          exact e1
        by_cases hmax : MAX_ITERATIONS ≤ iter + 1
        · rw [if_pos hmax] at h
          cases h
          exact hfin false
        · rw [if_neg hmax] at h
          split at h
          next e h3 => exact absurd h (by simp)
          next h3 =>
              have : r = finishRes ops post true := by
                rw [← Except.ok.injEq]; exact h.symm
              subst this
              exact hfin true
          next h3 => exact (ih (iter + 1) post r h).trans e1

/-- Claim C5, amended.  The slack invariants `Vmag[0] = Vreg_mag[0]` and
`Vang[0] = 0` hold at every iteration, and the returned `V[0]` equals the
declared phasor `Vreg_mag[0] + 0i`, provided the call is flat-started or its
`initial_V[0]` has zero imaginary part (the hypotheses on `ops` pin the two
library primitives at the one point used: `abs(v0+0i) = v0`,
`angle(v0+0i) = 0`).  With an arbitrary `initial_V` the initialization keeps
`initial_V[0].imag` and the invariant fails, as the counterexample shows. -/
theorem slack_bus_invariant (ops : Ops α) {N : ℕ} (inp : Inputs α N) (hN : 0 < N)
    (v0 : α) (hreg : inp.Vreg_mag ⟨0, hN⟩ = some v0)
    (hiv : inp.initial_V = none ∨
      ∃ iv, inp.initial_V = some iv ∧ (iv ⟨0, hN⟩).im = 0)
    (hcabs : ops.cabs ⟨v0, 0⟩ = v0) (hang : ops.angle ⟨v0, 0⟩ = 0) :
    (∀ (k : ℕ) (st : NRState α N),
      runPasses (advanceOrig ops inp) k
        (initState ops inp.Vreg_mag inp.initial_V inp.Sgen) = some st →
      st.Vmag ⟨0, hN⟩ = v0 ∧ st.Vang ⟨0, hN⟩ = 0) ∧
    (∀ r, origSolver ops inp = .ok r → r.V.getD 0 0 = ⟨v0, 0⟩) := by
  have hV0 : (initState ops inp.Vreg_mag inp.initial_V inp.Sgen).V ⟨0, hN⟩ = ⟨v0, 0⟩ := by
    simp only [initState]
    rcases hiv with hflat | ⟨iv, hwarm, hzero⟩
    · rw [hflat]
      simp [hreg]
    · rw [hwarm]
      simp [hreg, hzero]
  have hVmag0 : (initState ops inp.Vreg_mag inp.initial_V inp.Sgen).Vmag ⟨0, hN⟩ = v0 := by
    have e : (initState ops inp.Vreg_mag inp.initial_V inp.Sgen).Vmag ⟨0, hN⟩ =
        ops.cabs ((initState ops inp.Vreg_mag inp.initial_V inp.Sgen).V ⟨0, hN⟩) := rfl
    rw [e, hV0, hcabs]
  have hVang0 : (initState ops inp.Vreg_mag inp.initial_V inp.Sgen).Vang ⟨0, hN⟩ = 0 := by
    have e : (initState ops inp.Vreg_mag inp.initial_V inp.Sgen).Vang ⟨0, hN⟩ =
        ops.angle ((initState ops inp.Vreg_mag inp.initial_V inp.Sgen).V ⟨0, hN⟩) := rfl
    rw [e, hV0, hang]
  constructor
  · intro k st h
    obtain ⟨-, e2, e3⟩ :=
      runPasses_preserves_slack ops inp hN k
        (initState ops inp.Vreg_mag inp.initial_V inp.Sgen) st h
    exact ⟨e2.trans hVmag0, e3.trans hVang0⟩
  · intro r h
    rw [nrLoop_slack_V ops inp hN MAX_ITERATIONS 0 _ r h, hV0]

/-- Witness for the amended C5: the invariant instantiated at a concrete
flat-started call. -/
theorem slack_bus_invariant_witness :
    (∀ (k : ℕ) (st : NRState ℚ 2),
      runPasses (advanceOrig qOps inpW) k
        (initState qOps inpW.Vreg_mag inpW.initial_V inpW.Sgen) = some st →
      st.Vmag ⟨0, by norm_num⟩ = 1 ∧ st.Vang ⟨0, by norm_num⟩ = 0) ∧
    (∀ r, origSolver qOps inpW = .ok r → r.V.getD 0 0 = ⟨1, 0⟩) := by
  have h0 : (0:ℕ) < 2 := by norm_num
  have hreg : inpW.Vreg_mag ⟨0, h0⟩ = some 1 := rfl
  exact slack_bus_invariant qOps inpW h0 1 hreg (Or.inl rfl) rfl rfl

/-- A ragged nested list that is not square but whose first row has length
equal to the number of rows. -/
def MC8 : List (List (Cplx ℚ)) := [[0, 0], [0, 0, 0]]

/-- Counterexample to claim C8 as stated.  `MC8` is not square (its second row
has three entries), yet the shape validation — which only compares
`len(Ybus_matrix[0])` with `len(Ybus_matrix)` — accepts it, so no
`ValueError` is raised synchronously before iterating. -/
theorem ragged_matrix_passes_validation :
    isSquareSpec MC8 = false ∧
    validateShapes MC8 [some 1, none] [0, 0] none none none none none none = .ok () := by
  exact ⟨rfl, rfl⟩

/-- Claim C8, amended.  A `ValueError`/`IndexError` from the shape validation
is raised before any iteration and with the caller's `Sgen` untouched, and
validation success forces the first row's length (only) to match the row
count together with the `Vreg_mag`/`Sgen` lengths; conversely any matrix
whose first row length equals its row count — square or ragged — passes the
validation (stated with the optional arguments absent). -/
theorem validateShapes_characterization (ops : Ops α) (Ybus : List (List (Cplx α)))
    (Vreg_mag : List (Option α)) (Sgen : List (Cplx α))
    (Sload : Option (List (Cplx α)))
    (sI sY : Option (List (Option (Cplx α))))
    (qmin qmax : Option (List (Option α)))
    (qcap : Option (List (Option (α → α → Option (α × α)))))
    (initial_V : Option (List (Cplx α))) :
    (∀ e, validateShapes Ybus Vreg_mag Sgen Sload sI sY qmin qmax qcap = .error e →
      GenericNewtonRaphson ops Ybus Vreg_mag Sgen Sload sI sY qmin qmax qcap initial_V =
        .error (e, Sgen)) ∧
    (validateShapes Ybus Vreg_mag Sgen Sload sI sY qmin qmax qcap = .ok () →
      Ybus ≠ [] ∧ (Ybus.headD []).length = Ybus.length ∧
      Vreg_mag.length = Ybus.length ∧ Sgen.length = Ybus.length) ∧
    (Ybus ≠ [] → (Ybus.headD []).length = Ybus.length →
      Vreg_mag.length = Ybus.length → Sgen.length = Ybus.length →
      validateShapes Ybus Vreg_mag Sgen none none none none none none = .ok ()) := by
  refine ⟨?_, ?_, ?_⟩
  · intro e h
    simp only [GenericNewtonRaphson, h]
  · cases Ybus with
    | nil => intro h; exact absurd h (by simp [validateShapes])
    | cons r0 rest =>
        intro h
        simp only [validateShapes, List.head?] at h
        split_ifs at h with h1 h2 h3 h4 h5 h6 h7 h8
        all_goals try exact Except.noConfusion h
        refine ⟨by simp, by simpa [List.headD] using not_not.mp h1,
          not_not.mp h2, ?_⟩
        push_neg at h3
        exact h3.1
  · intro hne h2 h3 h4
    cases Ybus with
    | nil => exact absurd rfl hne
    | cons r0 rest =>
        have hr0 : r0.length = (r0 :: rest).length := by simpa [List.headD] using h2
        simp [validateShapes, List.head?, hr0, h3, h4]

/-- Witness for the amended C8: an empty matrix raises `IndexError` (from
`Ybus_matrix[0]`) before anything else runs, with `Sgen` unchanged. -/
theorem validateShapes_characterization_witness :
    GenericNewtonRaphson qOps ([] : List (List (Cplx ℚ))) [] [] none none none none
      none none none = .error (.indexError, []) :=
  (validateShapes_characterization qOps [] [] [] none none none none none none
    none).1 .indexError rfl

/-- The two-bus pure-reactance network `Ybus = [[-20i, 20i], [20i, -20i]]`
(line reactance `X = 0.05`), the standard test system of the spec. -/
def Y2 : Fin 2 → Fin 2 → Cplx ℝ :=
  ![![⟨0, -20⟩, ⟨0, 20⟩], ![⟨0, 20⟩, ⟨0, -20⟩]]

/-- Inputs for the two-bus network: slack regulated at `1`, bus 1 a PQ bus
drawing the reactive load `q`. -/
noncomputable def inp2 (q : ℝ) (iv : Option (Fin 2 → Cplx ℝ)) : Inputs ℝ 2 :=
  { Ybus := Y2
    Vreg_mag := ![some 1, none]
    Sgen := fun _ => 0
    Sload := ![0, ⟨0, q⟩]
    Sload_const_I := none
    Sload_const_Y := none
    Qgen_min := none
    Qgen_max := none
    Qgen_cap := none
    initial_V := iv }

/-- Solver state of the two-bus system with both angles zero, slack at `1`,
and bus-1 magnitude `v`. -/
noncomputable def st2 (v : ℝ) (S0 : Fin 2 → Cplx ℝ) : NRState ℝ 2 :=
  { V := ![⟨1, 0⟩, ⟨v, 0⟩]
    Vmag := ![1, v]
    Vang := ![0, 0]
    S := S0
    Sgen := fun _ => 0 }

/-- Power injections of the two-bus network at the zero-angle state. -/
def S2 (v : ℝ) : Fin 2 → Cplx ℝ :=
  ![⟨0, 20 - 20 * v⟩, ⟨0, 20 * v ^ 2 - 20 * v⟩]

theorem realOps_cabs_nonneg (x : ℝ) (h : 0 ≤ x) : realOps.cabs ⟨x, 0⟩ = x := by
  simp only [realOps]
  rw [show x ^ 2 + (0:ℝ) ^ 2 = x ^ 2 by ring, Real.sqrt_sq h]

theorem realOps_angle_nonneg (x : ℝ) (h : 0 ≤ x) : realOps.angle ⟨x, 0⟩ = 0 := by
  simp only [realOps]
  rw [Complex.arg_eq_zero_iff]
  constructor <;> simp [h]

theorem Y2_mag (i j : Fin 2) : realOps.cabs (Y2 i j) = 20 := by
  fin_cases i <;> fin_cases j <;>
    · simp only [Y2, realOps, Fin.mk_zero, Fin.mk_one, Matrix.cons_val_zero,
        Matrix.cons_val_one, Matrix.head_cons]
      rw [show ∀ y : ℝ, (0:ℝ) ^ 2 + y ^ 2 = y ^ 2 by intro y; ring]
      first
        | rw [show ((-20 : ℝ)) ^ 2 = (20:ℝ) ^ 2 by ring, Real.sqrt_sq (by norm_num)]
        | rw [Real.sqrt_sq (by norm_num)]

theorem Y2_ang (i j : Fin 2) :
    realOps.angle (Y2 i j) = if i = j then -(Real.pi / 2) else Real.pi / 2 := by
  fin_cases i <;> fin_cases j <;>
    · simp only [Y2, realOps, Fin.mk_zero, Fin.mk_one, Matrix.cons_val_zero,
        Matrix.cons_val_one, Matrix.head_cons]
      norm_num
      first
        | (rw [Complex.arg_eq_neg_pi_div_two_iff]; constructor <;> norm_num)
        | (rw [Complex.arg_eq_pi_div_two_iff]; constructor <;> norm_num)

/-- The Jacobian of the two-bus network at the zero-angle state `Vmag = [1, v]`
is the diagonal matrix `[[20 v, 0], [0, 40 v - 20]]`. -/
theorem jac2 (v : ℝ) :
    calculate_Jacobian realOps Y2 ![1, v] ![0, 0] =
      ![![20 * v, 0], ![0, 40 * v - 20]] := by
  have h01 : ((0 : Fin 2) = 1) = False := eq_false (by decide)
  have h10 : ((1 : Fin 2) = 0) = False := eq_false (by decide)
  have h11 : ((1 : Fin 2) = 1) = True := eq_true rfl
  have r0 : rowBus (0 : Fin ((2 - 1) * 2)) = (1 : Fin 2) := rfl
  have r1 : rowBus (1 : Fin ((2 - 1) * 2)) = (1 : Fin 2) := rfl
  have q0 : rowIsQ (0 : Fin ((2 - 1) * 2)) = false := rfl
  have q1 : rowIsQ (1 : Fin ((2 - 1) * 2)) = true := rfl
  have hsin : realOps.sin = Real.sin := rfl
  have hcos : realOps.cos = Real.cos := rfl
  funext r c
  fin_cases r <;> fin_cases c <;>
    · simp only [calculate_Jacobian, Fin.mk_zero, Fin.mk_one, r0, r1, q0, q1,
        Y2_mag, Y2_ang, hsin, hcos, Fin.sum_univ_two,
        Matrix.cons_val_zero, Matrix.cons_val_one, Matrix.head_cons,
        h01, h10, h11, if_true, if_false, sub_self, zero_sub, neg_neg,
        Real.sin_neg, Real.cos_neg, Real.sin_pi_div_two, Real.cos_pi_div_two]
      ring

theorem csum_two (f : Fin 2 → Cplx ℝ) : csum f = 0 + f 0 + f 1 := by
  simp [csum, List.ofFn_succ, List.ofFn_zero, List.foldl, Fin.succ_zero_eq_one]

/-- Exact evaluation of the 2x2 linear solve when the determinant is nonzero. -/
theorem linsolveReal_two (J : Fin 2 → Fin 2 → ℝ) (m : Fin 2 → ℝ)
    (h : J 0 0 * J 1 1 - J 0 1 * J 1 0 ≠ 0) :
    linsolveReal 2 J m =
      some ![(J 1 1 * m 0 - J 0 1 * m 1) / (J 0 0 * J 1 1 - J 0 1 * J 1 0),
             (J 0 0 * m 1 - J 1 0 * m 0) / (J 0 0 * J 1 1 - J 0 1 * J 1 0)] := by
  simp only [linsolveReal]
  rw [if_neg h]

/-- The state produced by the non-correction phase of a pass of the two-bus
system at the zero-angle state. -/
noncomputable def pre2 (v : ℝ) : NRState ℝ 2 :=
  { V := ![⟨1, 0⟩, ⟨v, 0⟩]
    Vmag := ![1, v]
    Vang := ![0, 0]
    S := S2 v
    Sgen := fun _ => 0 }

/-- The state after the full pass of the two-bus system: only the bus-1
magnitude moves, by the Newton step `(20 v (1 - v) - q) / (40 v - 20)`. -/
noncomputable def post2 (v q : ℝ) : NRState ℝ 2 :=
  { V := ![⟨1, 0⟩, ⟨v, 0⟩]
    Vmag := ![1, v + (20 * v * (1 - v) - q) / (40 * v - 20)]
    Vang := ![0, 0]
    S := S2 v
    Sgen := fun _ => 0 }

/-- One full pass of the original solver on the two-bus system from the
zero-angle state `Vmag = [1, v]`: the correction is
`[0, (20 v (1 - v) - q) / (40 v - 20)]`. -/
theorem advance2 (q v : ℝ) (iv : Option (Fin 2 → Cplx ℝ)) (S0 : Fin 2 → Cplx ℝ)
    (ha : (20:ℝ) * v ≠ 0) (hd : (40:ℝ) * v - 20 ≠ 0) :
    advanceOrig realOps (inp2 q iv) (st2 v S0) =
      (pre2 v, some (![0, (20 * v * (1 - v) - q) / (40 * v - 20)], post2 v q)) := by
  have h01 : ((0 : Fin 2) = 1) = False := eq_false (by decide)
  have h10 : ((1 : Fin 2) = 0) = False := eq_false (by decide)
  have hcls := classifyBus_noLimits (inp2 q iv) rfl rfl rfl
  have hnet := netInjection_noConst (inp2 q iv) rfl rfl
  have hdet : (![![20 * v, 0], ![0, 40 * v - 20]] : Fin 2 → Fin 2 → ℝ) 0 0 *
      (![![20 * v, 0], ![0, 40 * v - 20]] : Fin 2 → Fin 2 → ℝ) 1 1 -
      (![![20 * v, 0], ![0, 40 * v - 20]] : Fin 2 → Fin 2 → ℝ) 0 1 *
      (![![20 * v, 0], ![0, 40 * v - 20]] : Fin 2 → Fin 2 → ℝ) 1 0 ≠ 0 := by
    simp only [Matrix.cons_val_zero, Matrix.cons_val_one, Matrix.head_cons]
    simpa using mul_ne_zero ha hd
  have hsin : realOps.sin = Real.sin := rfl
  have hcos : realOps.cos = Real.cos := rfl
  have hrB0 : rowBus (0 : Fin ((2 - 1) * 2)) = (1 : Fin 2) := rfl
  have hrB1 : rowBus (1 : Fin ((2 - 1) * 2)) = (1 : Fin 2) := rfl
  have hrQ0 : rowIsQ (0 : Fin ((2 - 1) * 2)) = false := rfl
  have hrQ1 : rowIsQ (1 : Fin ((2 - 1) * 2)) = true := rfl
  have hp1 : ∀ h, pIdx (1 : Fin 2) h = (0 : Fin ((2 - 1) * 2)) := fun _ => rfl
  have hq1 : ∀ h, qIdx (1 : Fin 2) h = (1 : Fin ((2 - 1) * 2)) := fun _ => rfl
  simp only [advanceOrig, hcls, hnet]
  simp only [st2, inp2]
  simp only [jac2]
  rw [show realOps.linsolve = linsolveReal from rfl]
  rw [linsolveReal_two _ _ hdet]
  simp only [Prod.mk.injEq, Option.some.injEq]
  have hv1 : ((1 : Fin 2) : ℕ) = 1 := rfl
  have hv0 : ((0 : Fin 2) : ℕ) = 0 := rfl
  have hD : (-(v * 400) + v ^ 2 * 800 : ℝ) ≠ 0 := by
    have hval : (-(v * 400) + v ^ 2 * 800 : ℝ) = (20 * v) * (40 * v - 20) := by ring
    rw [hval]
    exact mul_ne_zero ha hd
  have hd' : (-20 + v * 40 : ℝ) ≠ 0 := by
    intro hcon
    exact hd (by linarith)
  refine ⟨?_, ?_, ?_⟩
  · -- the pre-correction state
    refine NRState.ext ?_ ?_ ?_ ?_ ?_ <;> funext i <;> fin_cases i <;>
      · simp only [pre2, S2, Y2, polar, busPower, csum_two, hsin, hcos,
          Cplx.mul_def, Cplx.add_def, Cplx.sub_def, Cplx.conj, Cplx.zero_def,
          Matrix.cons_val_zero, Matrix.cons_val_one, Matrix.head_cons,
          Fin.mk_zero, Fin.mk_one, Fin.isValue, hv0, hv1, ite_self,
          h01, h10, Real.sin_zero, Real.cos_zero, one_ne_zero,
          mul_zero, zero_mul, sub_zero, add_zero, zero_add,
          Option.isSome_some, Option.isSome_none, if_true, if_false]
        try norm_num
        try first
          | ring1
          | (constructor <;> ring1)
  · -- the correction vector
    funext p
    fin_cases p
    · simp only [Fin.mk_zero, Fin.isValue, Matrix.cons_val_zero, Matrix.cons_val_one,
        Matrix.head_cons, mismatchVec, hrB0, hrQ0, h10, Bool.false_eq_true, if_false,
        busPower, csum_two, Y2, polar, hsin, hcos, Real.sin_zero, Real.cos_zero,
        hv0, hv1, ite_self, one_ne_zero, if_true, if_false,
        mul_zero, zero_mul, sub_zero, add_zero, zero_add,
        Cplx.mul_def, Cplx.add_def, Cplx.sub_def, Cplx.conj, Cplx.zero_def,
        Option.isSome_none, Option.isSome_some]
      rw [div_eq_zero_iff]
      left
      ring
    · simp only [Fin.mk_one, Fin.isValue, Matrix.cons_val_zero, Matrix.cons_val_one,
        Matrix.head_cons, mismatchVec, hrB1, hrQ1, h10, Bool.false_eq_true, if_false,
        busPower, csum_two, Y2, polar, hsin, hcos, Real.sin_zero, Real.cos_zero,
        hv0, hv1, ite_self, one_ne_zero, if_true, if_false,
        mul_zero, zero_mul, sub_zero, add_zero, zero_add,
        Cplx.mul_def, Cplx.add_def, Cplx.sub_def, Cplx.conj, Cplx.zero_def,
        Option.isSome_none, Option.isSome_some]
      rw [mul_div_mul_left _ _ ha, div_eq_div_iff hd hd]
      ring
  · -- the corrected state
    refine NRState.ext ?_ ?_ ?_ ?_ ?_ <;> funext i <;> fin_cases i <;>
      · simp only [post2, S2, Y2, polar, busPower, csum_two, applyCorrections,
          mismatchVec, hsin, hcos, hrB0, hrB1, hrQ0, hrQ1, hp1, hq1,
          Cplx.mul_def, Cplx.add_def, Cplx.sub_def, Cplx.conj, Cplx.zero_def,
          Matrix.cons_val_zero, Matrix.cons_val_one, Matrix.head_cons,
          Fin.mk_zero, Fin.mk_one, Fin.isValue, hv0, hv1, ite_self,
          h01, h10, Real.sin_zero, Real.cos_zero, one_ne_zero,
          mul_zero, zero_mul, sub_zero, add_zero, zero_add,
          Option.isSome_some, Option.isSome_none, if_true, if_false]
        try norm_num
        try first
          | ring1
          | (constructor <;> ring1)
          | (rw [div_eq_zero_iff]; left; ring1)
          | (rw [mul_div_mul_left _ _ ha]; congr 1; rw [div_eq_div_iff hd hd]; ring1)
          | (congr 1; rw [mul_div_mul_left _ _ ha, div_eq_div_iff hd hd]; ring1)
          | (field_simp [hD, hd']; ring1)

/-- Reading a `List.ofFn` back at an in-range index recovers the function. -/
theorem getD_ofFn_cplx {N : ℕ} (f : Fin N → Cplx α) (j : Fin N) :
    (List.ofFn f).getD j.val 0 = f j := by
  simp only [List.getD_eq_getElem?_getD, List.getElem?_ofFn, List.ofFnNthVal]
  rw [dif_pos j.isLt]
  simp only [Option.getD_some, Fin.eta]

/-- A flat start of the two-bus system initializes every phasor to `1`. -/
theorem init2_flat (q : ℝ) :
    initState realOps (inp2 q none).Vreg_mag (inp2 q none).initial_V
      (inp2 q none).Sgen = st2 1 (fun _ => 0) := by
  refine NRState.ext ?_ ?_ ?_ ?_ ?_ <;> funext i <;> fin_cases i <;>
    · simp only [initState, inp2, st2, Matrix.cons_val_zero, Matrix.cons_val_one,
        Matrix.head_cons, Fin.mk_zero, Fin.mk_one, Fin.isValue,
        Option.isSome_some, Option.isSome_none, Option.getD_some,
        if_true, if_false, Bool.false_eq_true]
      all_goals first
        | rfl
        | exact realOps_cabs_nonneg 1 (by norm_num)
        | exact realOps_angle_nonneg 1 (by norm_num)

/-- A warm start of the two-bus system from the zero-angle phasors
`[1, v0]` (with `v0 ≥ 0`) initializes the state to `st2 v0`. -/
theorem init2_warm (q v0 : ℝ) (h : 0 ≤ v0) :
    initState realOps (inp2 q (some ![⟨1, 0⟩, ⟨v0, 0⟩])).Vreg_mag
      (inp2 q (some ![⟨1, 0⟩, ⟨v0, 0⟩])).initial_V
      (inp2 q (some ![⟨1, 0⟩, ⟨v0, 0⟩])).Sgen = st2 v0 (fun _ => 0) := by
  refine NRState.ext ?_ ?_ ?_ ?_ ?_ <;> funext i <;> fin_cases i <;>
    · simp only [initState, inp2, st2, Matrix.cons_val_zero, Matrix.cons_val_one,
        Matrix.head_cons, Fin.mk_zero, Fin.mk_one, Fin.isValue,
        Option.isSome_some, Option.isSome_none, Option.getD_some,
        if_true, if_false, Bool.false_eq_true]
      all_goals first
        | rfl
        | exact realOps_cabs_nonneg 1 (by norm_num)
        | exact realOps_cabs_nonneg v0 h
        | exact realOps_angle_nonneg 1 (by norm_num)
        | exact realOps_angle_nonneg v0 h

/-- The convergence test on a two-entry correction vector, in closed form. -/
theorem tolTest_two (d : Fin 2 → ℝ) :
    tolTest d = .ok (if max (max (d 0) (d 1)) (-min (d 0) (d 1)) ≤ TOLERANCE ℝ
      then true else false) := by
  simp only [tolTest, pyMax, pyMin, List.ofFn_succ, List.ofFn_zero, List.foldl,
    Fin.succ_zero_eq_one, Fin.isValue]

/-- Counterexample to claim C4.  On the two-bus susceptance network with
reactive load `q = 2e-8` and a flat start, the full solver converges on its
first pass (the correction is exactly `-1e-9`, at the tolerance boundary) and
returns `solved = true`; the returned `V` is recomputed from the corrected
magnitude `1 - 1e-9`, but the returned `S` is the power computed from the
pre-correction voltages (lines 423-426 recompute only `V`), so recomputing
`S = V conj(Y V)` from the returned `V` does not reproduce the returned `S`. -/
theorem returned_S_not_self_consistent :
    ∃ r, origSolver realOps (inp2 (1 / 50000000) none) = .ok r ∧
      r.solved = true ∧ ¬ selfConsistent (inp2 (1 / 50000000) none).Ybus r := by
  have h2 := advance2 (1 / 50000000) 1 none (fun _ => 0) (by norm_num) (by norm_num)
  have h2' : (advanceOrig realOps (inp2 (1 / 50000000) none)
      (st2 1 (fun _ => 0))).2 =
      some (![0, (20 * 1 * (1 - 1) - 1 / 50000000) / (40 * 1 - 20)],
        post2 1 (1 / 50000000)) := by
    rw [h2]
  have htol : tolTest ![(0 : ℝ), (20 * 1 * (1 - 1) - 1 / 50000000) / (40 * 1 - 20)] =
      .ok true := by
    rw [tolTest_two]
    simp only [Matrix.cons_val_zero, Matrix.cons_val_one, Matrix.head_cons, Fin.isValue]
    norm_num [TOLERANCE]
  have hrun : origSolver realOps (inp2 (1 / 50000000) none) =
      .ok (finishRes realOps (post2 1 (1 / 50000000)) true) := by
    unfold origSolver
    rw [init2_flat]
    exact nrLoop_first_pass_exit realOps _ _ _ _ h2' htol
  refine ⟨_, hrun, rfl, ?_⟩
  intro hsc
  simp only [selfConsistent, finishRes, getD_ofFn_cplx] at hsc
  have h1 := congrFun (List.ofFn_inj.mp hsc) 1
  have him := congrArg Cplx.im h1
  have hv1 : ((1 : Fin 2) : ℕ) = 1 := rfl
  have hv0 : ((0 : Fin 2) : ℕ) = 0 := rfl
  have hsin : realOps.sin = Real.sin := rfl
  have hcos : realOps.cos = Real.cos := rfl
  simp only [post2, S2, inp2, busPower, csum_two, Y2, polar, hsin, hcos,
    Real.sin_zero, Real.cos_zero, hv0, hv1, one_ne_zero, if_true, if_false,
    Matrix.cons_val_zero, Matrix.cons_val_one, Matrix.head_cons, Fin.isValue,
    Cplx.mul_def, Cplx.add_def, Cplx.sub_def, Cplx.conj, Cplx.zero_def,
    mul_zero, zero_mul, mul_one, sub_zero, add_zero, zero_add, neg_zero] at him
  norm_num at him

/-- Every run of the docs-copy loop exits through `docsFinish`. -/
theorem docsLoop_is_finish (ops : Ops α) {N : ℕ} (inp : Inputs α N) :
    ∀ (fuel iter : ℕ) (st : NRState α N),
      ∃ st' b, docsLoop ops inp fuel iter st = docsFinish ops inp.Ybus st' b := by
  intro fuel
  induction fuel with
  | zero => exact fun iter st => ⟨st, false, rfl⟩
  | succ n ih =>
      intro iter st
      rcases hadv : docsAdvance ops inp st with ⟨pre, o⟩
      rw [show (n + 1 : ℕ) = Nat.succ n from rfl]
      cases o with
      | none => exact ⟨pre, false, by simp only [docsLoop, hadv]⟩
      | some p =>
          obtain ⟨δ, post⟩ := p
          simp only [docsLoop, hadv]
          split_ifs with hmax hconv
          · exact ⟨post, false, rfl⟩
          · exact ⟨post, true, rfl⟩
          · exact ih (iter + 1) post

/-- The finalization of the docs copy recomputes `S` from the returned `V`,
so its result satisfies the self-consistency predicate. -/
theorem docsFinish_selfConsistent (ops : Ops α) {N : ℕ}
    (Ybus : Fin N → Fin N → Cplx α) (st : NRState α N) (b : Bool) :
    selfConsistent Ybus (docsFinish ops Ybus st b) := by
  simp only [selfConsistent, docsFinish, getD_ofFn_cplx]

/-- Claim C4, amended.  In the docs copy (src/docs/newton_raphson.py lines
324-331) the returned `V[i]` is recomputed from the settled `(Vmag, Vang)` and
the returned `S` is then recomputed as `S = V conj(Ybus V)` from that same
returned `V`, so every result — `solved` or not — is self-consistent.  In the
original copy (lines 423-426) only `V` is recomputed; the returned `S` is the
one computed from the pre-correction voltages of the last pass, and the
counterexample above shows a converged run whose returned `S` fails the
recomputation check. -/
theorem docs_solver_self_consistent (ops : Ops α) {N : ℕ} (inp : Inputs α N) :
    selfConsistent inp.Ybus (docsSolver ops inp) := by
  obtain ⟨st', b, h⟩ := docsLoop_is_finish ops inp MAX_ITERATIONS 0
    (docsInitState ops inp.Vreg_mag inp.initial_V inp.Sgen)
  unfold docsSolver
  rw [h]
  exact docsFinish_selfConsistent ops inp.Ybus st' b

/-- Counterexample to claim C9.  On the two-bus susceptance network with
reactive load `q = 5 + 1e-17` (just past the loadability nose at `q = 5`), a
call started near the nose at `Vmag[1] = 1/2 + 1e-9` converges on its first
pass (correction `-7.5e-10`) and returns `V = [1, 1/2 + 2.5e-10]` with
`solved = true`; but the warm-started second call with `initial_V` equal to
that returned `V` and unchanged inputs produces the first correction
`-1.125e-9`, which fails the `1e-9` tolerance, so the first correction vector
of the warm start does not already satisfy the tolerance and the second call
cannot converge in one iteration. -/
theorem warm_start_not_one_iteration :
    ∃ r d,
      origSolver realOps (inp2 (5 + 1 / 100000000000000000)
        (some ![⟨1, 0⟩, ⟨1 / 2 + 1 / 1000000000, 0⟩])) = .ok r ∧
      r.solved = true ∧
      r.V = List.ofFn ![(⟨1, 0⟩ : Cplx ℝ), ⟨1 / 2 + 1 / 4000000000, 0⟩] ∧
      deltaAt (advanceOrig realOps (inp2 (5 + 1 / 100000000000000000)
          (some ![⟨1, 0⟩, ⟨1 / 2 + 1 / 4000000000, 0⟩])))
        (initState realOps
          (inp2 (5 + 1 / 100000000000000000)
            (some ![⟨1, 0⟩, ⟨1 / 2 + 1 / 4000000000, 0⟩])).Vreg_mag
          (inp2 (5 + 1 / 100000000000000000)
            (some ![⟨1, 0⟩, ⟨1 / 2 + 1 / 4000000000, 0⟩])).initial_V
          (inp2 (5 + 1 / 100000000000000000)
            (some ![⟨1, 0⟩, ⟨1 / 2 + 1 / 4000000000, 0⟩])).Sgen) 0 = some d ∧
      tolTest d = .ok false := by
  have h2 := advance2 (5 + 1 / 100000000000000000) (1 / 2 + 1 / 1000000000)
    (some ![⟨1, 0⟩, ⟨1 / 2 + 1 / 1000000000, 0⟩]) (fun _ => 0)
    (by norm_num) (by norm_num)
  have h2' : (advanceOrig realOps (inp2 (5 + 1 / 100000000000000000)
      (some ![⟨1, 0⟩, ⟨1 / 2 + 1 / 1000000000, 0⟩]))
      (st2 (1 / 2 + 1 / 1000000000) (fun _ => 0))).2 =
      some (![(0 : ℝ), (20 * (1 / 2 + 1 / 1000000000) * (1 - (1 / 2 + 1 / 1000000000))
          - (5 + 1 / 100000000000000000)) / (40 * (1 / 2 + 1 / 1000000000) - 20)],
        post2 (1 / 2 + 1 / 1000000000) (5 + 1 / 100000000000000000)) := by
    rw [h2]
  have htol1 : tolTest ![(0 : ℝ),
      (20 * (1 / 2 + 1 / 1000000000) * (1 - (1 / 2 + 1 / 1000000000))
        - (5 + 1 / 100000000000000000)) / (40 * (1 / 2 + 1 / 1000000000) - 20)] =
      .ok true := by
    rw [tolTest_two]
    simp only [Matrix.cons_val_zero, Matrix.cons_val_one, Matrix.head_cons, Fin.isValue]
    norm_num [TOLERANCE]
  have hrun : origSolver realOps (inp2 (5 + 1 / 100000000000000000)
      (some ![⟨1, 0⟩, ⟨1 / 2 + 1 / 1000000000, 0⟩])) =
      .ok (finishRes realOps
        (post2 (1 / 2 + 1 / 1000000000) (5 + 1 / 100000000000000000)) true) := by
    unfold origSolver
    rw [init2_warm (5 + 1 / 100000000000000000) (1 / 2 + 1 / 1000000000) (by norm_num)]
    exact nrLoop_first_pass_exit realOps _ _ _ _ h2' htol1
  have hv1 : ((1 : Fin 2) : ℕ) = 1 := rfl
  have hV : (finishRes realOps
      (post2 (1 / 2 + 1 / 1000000000) (5 + 1 / 100000000000000000)) true).V =
      List.ofFn ![(⟨1, 0⟩ : Cplx ℝ), ⟨1 / 2 + 1 / 4000000000, 0⟩] := by
    simp only [finishRes]
    congr 1
    funext i
    fin_cases i
    · simp [post2]
    · simp only [post2, polar, Fin.mk_one, Fin.isValue, hv1, one_ne_zero, if_false,
        Matrix.cons_val_one, Matrix.head_cons,
        show realOps.cos = Real.cos from rfl, show realOps.sin = Real.sin from rfl,
        Real.cos_zero, Real.sin_zero, mul_one, mul_zero, Cplx.mk.injEq]
      norm_num
  have hinit2 := init2_warm (5 + 1 / 100000000000000000) (1 / 2 + 1 / 4000000000)
    (by norm_num)
  have h2b := advance2 (5 + 1 / 100000000000000000) (1 / 2 + 1 / 4000000000)
    (some ![⟨1, 0⟩, ⟨1 / 2 + 1 / 4000000000, 0⟩]) (fun _ => 0)
    (by norm_num) (by norm_num)
  have hdelta : deltaAt (advanceOrig realOps (inp2 (5 + 1 / 100000000000000000)
      (some ![⟨1, 0⟩, ⟨1 / 2 + 1 / 4000000000, 0⟩])))
      (initState realOps
        (inp2 (5 + 1 / 100000000000000000)
          (some ![⟨1, 0⟩, ⟨1 / 2 + 1 / 4000000000, 0⟩])).Vreg_mag
        (inp2 (5 + 1 / 100000000000000000)
          (some ![⟨1, 0⟩, ⟨1 / 2 + 1 / 4000000000, 0⟩])).initial_V
        (inp2 (5 + 1 / 100000000000000000)
          (some ![⟨1, 0⟩, ⟨1 / 2 + 1 / 4000000000, 0⟩])).Sgen) 0 =
      some ![(0 : ℝ),
        (20 * (1 / 2 + 1 / 4000000000) * (1 - (1 / 2 + 1 / 4000000000))
          - (5 + 1 / 100000000000000000)) / (40 * (1 / 2 + 1 / 4000000000) - 20)] := by
    rw [deltaAt_zero, hinit2, h2b]
    simp only [Option.map_some']
  have htol2 : tolTest ![(0 : ℝ),
      (20 * (1 / 2 + 1 / 4000000000) * (1 - (1 / 2 + 1 / 4000000000))
        - (5 + 1 / 100000000000000000)) / (40 * (1 / 2 + 1 / 4000000000) - 20)] =
      .ok false := by
    rw [tolTest_two]
    simp only [Matrix.cons_val_zero, Matrix.cons_val_one, Matrix.head_cons, Fin.isValue]
    norm_num [TOLERANCE]
  exact ⟨_, _, hrun, rfl, hV, hdelta, htol2⟩

/-- A two-bus input whose admittance matrix is identically zero: its Jacobian
is the zero matrix, so the linear solve of every pass is singular. -/
noncomputable def inpSing : Inputs ℝ 2 :=
  { Ybus := fun _ _ => 0
    Vreg_mag := ![some 1, none]
    Sgen := fun _ => 0
    Sload := fun _ => 0
    Sload_const_I := none
    Sload_const_Y := none
    Qgen_min := none
    Qgen_max := none
    Qgen_cap := none
    initial_V := none }

/-- The Jacobian of the zero-admittance network is zero at every state. -/
theorem jacSing (Vm Va : Fin 2 → ℝ) :
    calculate_Jacobian realOps inpSing.Ybus Vm Va = fun _ _ => (0 : ℝ) := by
  have hc : realOps.cabs 0 = 0 := by
    show Real.sqrt ((0 : Cplx ℝ).re ^ 2 + (0 : Cplx ℝ).im ^ 2) = 0
    rw [Cplx.re_zero, Cplx.im_zero]
    norm_num
  have hrB0 : rowBus (0 : Fin ((2 - 1) * 2)) = (1 : Fin 2) := rfl
  have hrB1 : rowBus (1 : Fin ((2 - 1) * 2)) = (1 : Fin 2) := rfl
  have hrQ0 : rowIsQ (0 : Fin ((2 - 1) * 2)) = false := rfl
  have hrQ1 : rowIsQ (1 : Fin ((2 - 1) * 2)) = true := rfl
  funext r c
  fin_cases r <;> fin_cases c <;>
    · simp [calculate_Jacobian, inpSing, hc, hrB0, hrB1, hrQ0, hrQ1,
        Fin.mk_zero, Fin.mk_one]

/-- Every pass on the zero-admittance network reports a singular solve and
leaves the caller-aliased `Sgen` untouched. -/
theorem advSing (st : NRState ℝ 2) :
    (advanceOrig realOps inpSing st).2 = none ∧
    (advanceOrig realOps inpSing st).1.Sgen = st.Sgen := by
  have hls : ∀ m : Fin ((2 - 1) * 2) → ℝ,
      realOps.linsolve ((2 - 1) * 2)
        (calculate_Jacobian realOps inpSing.Ybus st.Vmag st.Vang) m = none := by
    intro m
    rw [jacSing st.Vmag st.Vang]
    show linsolveReal 2 (fun _ _ => 0) m = none
    simp only [linsolveReal]
    rw [if_pos (by norm_num)]
  have hcls := classifyBus_noLimits inpSing rfl rfl rfl
  constructor
  · simp only [advanceOrig, hls]
  · simp only [advanceOrig, hls, hcls]
    funext i
    by_cases h : i.val = 0
    · simp [h]
    · simp [h]

/-- Counterexample to claim C2.  On the zero-admittance two-bus network the
first pass's Jacobian is singular; `numpy.linalg.inv` at line 328 of the
original copy runs with no enclosing try/except, so the `LinAlgError`
propagates out of `GenericNewtonRaphson` (carrying the caller-aliased `Sgen`)
instead of returning the last state with `solved = false`. -/
theorem singular_jacobian_propagates :
    origSolver realOps inpSing = .error (.linAlgError, [0, 0]) := by
  obtain ⟨h2, hSgen⟩ :=
    advSing (initState realOps inpSing.Vreg_mag inpSing.initial_V inpSing.Sgen)
  unfold origSolver
  show nrLoopRaise realOps _ (Nat.succ 199) 0 _ = _
  simp only [nrLoopRaise, h2, hSgen]
  simp [initState, inpSing, List.ofFn_succ]

/-- Claim C2, amended.  The docs copy (src/docs/newton_raphson.py lines
274-280) wraps the linear solve in `try: ... except numpy.linalg.LinAlgError:
break`: when a pass reports a singular Jacobian, the loop stops before any
correction is applied and the call returns the finalization of the
pre-correction state with `solved = false`.  The original copy instead
propagates the exception (counterexample above). -/
theorem docs_singular_soft_fail (ops : Ops α) {N : ℕ} (inp : Inputs α N)
    (fuel iter : ℕ) (st pre : NRState α N)
    (h : docsAdvance ops inp st = (pre, none)) :
    docsLoop ops inp (fuel + 1) iter st = docsFinish ops inp.Ybus pre false ∧
    (docsFinish ops inp.Ybus pre false).solved = false := by
  constructor
  · show docsLoop ops inp (Nat.succ fuel) iter st = _
    simp only [docsLoop, h]
  · rfl

/-- Witness for the amended C2: under the always-singular solve oracle the
docs loop exits its first pass through `docsFinish` with `solved = false`. -/
theorem docs_singular_soft_fail_witness :
    docsLoop qOpsSing inpW 200 0
        (docsInitState qOpsSing inpW.Vreg_mag inpW.initial_V inpW.Sgen) =
      docsFinish qOpsSing inpW.Ybus
        (docsAdvance qOpsSing inpW
          (docsInitState qOpsSing inpW.Vreg_mag inpW.initial_V inpW.Sgen)).1 false ∧
    (docsFinish qOpsSing inpW.Ybus
        (docsAdvance qOpsSing inpW
          (docsInitState qOpsSing inpW.Vreg_mag inpW.initial_V inpW.Sgen)).1
        false).solved = false :=
  docs_singular_soft_fail qOpsSing inpW 199 0
    (docsInitState qOpsSing inpW.Vreg_mag inpW.initial_V inpW.Sgen)
    (docsAdvance qOpsSing inpW
      (docsInitState qOpsSing inpW.Vreg_mag inpW.initial_V inpW.Sgen)).1 rfl

end PowerFlow
